import Mathlib

/-!
# BranChat core — shallow embedding and verification

This file embeds the core logic of the BranChat repository in Lean 4:

* the conversation tree model and the mutation operations of the
  Conversation Store (`ChatContext`),
* the retry/backoff utility (`src/services/llm/utils.ts`),
* the provider-adapter stream dispatch (base class + per-vendor overrides),
* the debounced persistence coordinator,
* the throttled stream-update callback (`ChatView`).

Timestamps (`Date.now()`) are threaded explicitly as `Nat` parameters,
generated identifiers (`msg-...`, `branch-...`) are passed as explicit
`String` parameters, and `Math.random()`-driven choices are passed as an
explicit `Nat` parameter, so that each operation is a pure function of its
inputs.  JavaScript `Date` values become `Nat` millisecond timestamps.
-/

/-! ## String utilities

JavaScript `String.prototype.includes` modelled on character lists. -/

/-- `charsStartWith n h` is true when `n` is an initial segment of `h`. -/
def charsStartWith : List Char → List Char → Bool
  | [], _ => true
  | _ :: _, [] => false
  | n :: ns, h :: hs => n == h && charsStartWith ns hs

/-- `charsIncludes n h` is true when `n` occurs contiguously inside `h`,
mirroring JavaScript `h.includes(n)`. -/
def charsIncludes (needle : List Char) : List Char → Bool
  | [] => needle.isEmpty
  | h :: hs => charsStartWith needle (h :: hs) || charsIncludes needle hs

/-- `strIncludes hay needle` mirrors JavaScript `hay.includes(needle)`. -/
def strIncludes (hay needle : String) : Bool :=
  charsIncludes needle.toList hay.toList

/-- Concatenation of a list of strings, in order. -/
def strConcat : List String → String
  | [] => ""
  | s :: ss => s ++ strConcat ss

/-! ## Chat data model (`src/types/chat.ts`) -/

inductive ModelProvider where
  | openai | anthropic | google | xai | openrouter
  deriving DecidableEq

inductive ModelType where
  | chat | image
  deriving DecidableEq

structure Model where
  id : String
  name : String
  provider : ModelProvider
  description : String
  modelType : Option ModelType := none
  supportsWebSearch : Option Bool := none
  deriving DecidableEq

structure Attachment where
  id : String
  name : String
  attType : String        -- 'image' | 'document'
  mimeType : String
  data : Option String := none
  size : Nat
  deriving DecidableEq

inductive Role where
  | user | assistant
  deriving DecidableEq

structure Message where
  id : String
  content : String
  role : Role
  timestamp : Nat
  parentId : Option String
  branchIds : List String
  model : Option Model := none
  attachments : Option (List Attachment) := none
  deriving DecidableEq

structure Branch where
  id : String
  name : String
  rootMessageId : String
  messages : List Message
  isCollapsed : Bool
  color : String
  createdAt : Nat
  model : Option Model := none
  deriving DecidableEq

structure Conversation where
  id : String
  title : String
  messages : List Message
  branches : List Branch
  createdAt : Nat
  updatedAt : Nat
  model : Model
  starred : Option Bool := none
  deriving DecidableEq

/-- The model catalog (`MODELS` in `src/types/chat.ts`). -/
def MODELS : List Model := [
  { id := "gpt-5.2", name := "GPT-5.2", provider := .openai,
    description := "Latest OpenAI flagship model", supportsWebSearch := some true },
  { id := "gpt-5.2-pro", name := "GPT-5.2 Pro", provider := .openai,
    description := "Most capable OpenAI model", supportsWebSearch := some true },
  { id := "gpt-5-mini", name := "GPT-5 mini", provider := .openai,
    description := "Fast and efficient", supportsWebSearch := some true },
  { id := "claude-opus-4-5", name := "Opus 4.5", provider := .anthropic,
    description := "Most powerful Claude model", supportsWebSearch := some true },
  { id := "claude-sonnet-4-5", name := "Sonnet 4.5", provider := .anthropic,
    description := "Balanced performance and speed", supportsWebSearch := some true },
  { id := "gemini-3-pro-preview", name := "Gemini 3.0 Pro", provider := .google,
    description := "Advanced reasoning capabilities", supportsWebSearch := some true },
  { id := "gemini-3-flash-preview", name := "Gemini 3.0 Flash", provider := .google,
    description := "Fast and lightweight", supportsWebSearch := some true },
  { id := "grok-4-1-fast", name := "Grok 4.1 Fast", provider := .xai,
    description := "Fast and efficient xAI model", supportsWebSearch := some true },
  { id := "grok-4-1-fast-reasoning", name := "Grok 4.1 Fast Reasoning", provider := .xai,
    description := "Fast with reasoning capabilities", supportsWebSearch := some true },
  { id := "z-ai/glm-4.7", name := "GLM-4.7", provider := .openrouter,
    description := "Zhipu AI language model", supportsWebSearch := some true },
  { id := "moonshotai/kimi-k2-thinking", name := "Kimi K2 Thinking", provider := .openrouter,
    description := "Moonshot AI reasoning model", supportsWebSearch := some true },
  { id := "deepseek/deepseek-v3.2", name := "DeepSeek V3.2", provider := .openrouter,
    description := "DeepSeek advanced model", supportsWebSearch := some true }]

/-- Branch color palette (`BRANCH_COLORS` in `ChatContext`). -/
def BRANCH_COLORS : List String := [
  "hsl(217 91% 60%)",
  "hsl(142 71% 45%)",
  "hsl(280 65% 60%)",
  "hsl(47 95% 55%)",
  "hsl(0 84% 60%)"]

/-! ## Conversation Store state (`ChatContext`)

The React state of `ChatProvider`: the conversation list, the active
conversation id, the open branch ids and the selected model. -/

structure ChatState where
  conversations : List Conversation
  activeConversationId : Option String
  activeBranchIds : List String
  selectedModel : Model
  deriving DecidableEq

/-- Whether a conversation is the active one
(`conv.id === activeConversationId`; `null` compares unequal to any id). -/
def isActiveConv (s : ChatState) (c : Conversation) : Bool :=
  match s.activeConversationId with
  | some aid => c.id == aid
  | none => false

/-- Attachment ids of one message (`msg.attachments?.map(a => a.id)`,
empty when the field is absent). -/
def attIds (m : Message) : List String :=
  match m.attachments with
  | some atts => atts.map (·.id)
  | none => []

/-! ## Conversation Store operations (`ChatContext`)

Each operation mirrors one `useCallback` body.  `setConversations(prev =>
prev.map(...))` becomes a pure `List.map` over the conversation list. -/

/-- `addMessage(content, role, parentId?, conversationId?, attachments?)`.
`newMsgId` stands for the generated `msg-${Date.now()}-${random}` id and
`now` for `Date.now()`.  Returns the new state and the returned message.
The title derivation `content.slice(0, 50) + (content.length > 50 ? '...' :
'')` is modelled on the character list of `content`. -/
def addMessage (s : ChatState) (content : String) (role : Role)
    (parentId : Option String) (conversationId : Option String)
    (attachments : Option (List Attachment)) (newMsgId : String) (now : Nat) :
    ChatState × Message :=
  let targetConvId := match conversationId with
    | some cid => some cid
    | none => s.activeConversationId
  let newMessage : Message :=
    { id := newMsgId, content := content, role := role, timestamp := now,
      parentId := parentId, branchIds := [],
      model := if role = .assistant then some s.selectedModel else none,
      attachments := attachments }
  let conversations := s.conversations.map fun conv =>
    if some conv.id == targetConvId then
      let messages := conv.messages ++ [newMessage]
      let title :=
        if conv.messages.length = 0 ∧ role = .user then
          String.mk (content.toList.take 50) ++
            (if 50 < content.toList.length then "..." else "")
        else conv.title
      { conv with messages := messages, title := title, updatedAt := now }
    else conv
  ({ s with conversations := conversations }, newMessage)

/-- Truncating edit of one message list: `findIndex` by id, then
`slice(0, i)` plus the updated message; unchanged when the id is absent. -/
def truncateEdit (msgs : List Message) (messageId newContent : String) :
    List Message :=
  let i := msgs.findIdx (fun m => m.id == messageId)
  if h : i < msgs.length then
    msgs.take i ++ [{ msgs.get ⟨i, h⟩ with content := newContent }]
  else msgs

/-- The main-sequence case of `editMessage` on the active conversation:
`findIndex` by id, truncate after it, replace the content, bump
`updatedAt`; unchanged when the id is absent. -/
def editMessageMainConv (messageId newContent : String) (now : Nat)
    (conv : Conversation) : Conversation :=
  let i := conv.messages.findIdx (fun m => m.id == messageId)
  if h : i < conv.messages.length then
    { conv with
      messages := conv.messages.take i ++
        [{ conv.messages.get ⟨i, h⟩ with content := newContent }],
      updatedAt := now }
  else conv

/-- The branch case of `editMessage` on the active conversation: apply the
truncating edit inside the named branch, bump `updatedAt`. -/
def editMessageBranchConv (bid messageId newContent : String) (now : Nat)
    (conv : Conversation) : Conversation :=
  { conv with
    branches := conv.branches.map fun b =>
      if b.id == bid then
        { b with messages := truncateEdit b.messages messageId newContent }
      else b,
    updatedAt := now }

/-- `editMessage(messageId, newContent, branchId?)`: locates the message in
the active conversation (in the given branch, or in the main sequence) and
drops every later message of that same timeline. -/
def editMessage (s : ChatState) (messageId newContent : String)
    (branchId : Option String) (now : Nat) : ChatState :=
  let conversations := s.conversations.map fun conv =>
    if isActiveConv s conv then
      match branchId with
      | some bid => editMessageBranchConv bid messageId newContent now conv
      | none => editMessageMainConv messageId newContent now conv
    else conv
  { s with conversations := conversations }

/-- The active-conversation transform of `createBranch`: tag the root
message with the new branch id and append the new branch. -/
def createBranchConv (fromMessageId newBranchId : String) (newBranch : Branch)
    (now : Nat) (conv : Conversation) : Conversation :=
  { conv with
    messages := conv.messages.map fun msg =>
      if msg.id == fromMessageId then
        { msg with branchIds := msg.branchIds ++ [newBranchId] }
      else msg,
    branches := conv.branches ++ [newBranch],
    updatedAt := now }

/-- `createBranch(fromMessageId)`.  `newBranchId` stands for the generated
`branch-${Date.now()}` id, `rand` determinises
`Math.floor(Math.random() * otherModels.length)` (reduced `mod` the
catalog size), `now` is `Date.now()`. -/
def createBranch (s : ChatState) (fromMessageId : String)
    (newBranchId : String) (rand : Nat) (now : Nat) : ChatState × Branch :=
  let conv? : Option Conversation := match s.activeConversationId with
    | some aid => s.conversations.find? (fun c => c.id == aid)
    | none => none
  let branchCount := (conv?.map (fun c => c.branches.length)).getD 0
  let colorIndex := branchCount % BRANCH_COLORS.length
  let rootMessage? := conv?.bind (fun c => c.messages.find? (fun m => m.id == fromMessageId))
  let branchModel :=
    match conv?, rootMessage? with
    | some c, some rm =>
      if rm.role = .user then
        let msgIndex := c.messages.findIdx (fun m => m.id == fromMessageId)
        let responseAfter := c.messages.get? (msgIndex + 1)
        let originalModel := (responseAfter.bind (fun m => m.model)).getD s.selectedModel
        let otherModels := MODELS.filter (fun m => ¬ m.id = originalModel.id)
        ((otherModels.get? (rand % otherModels.length)).getD s.selectedModel)
      else s.selectedModel
    | _, _ => s.selectedModel
  let newBranch : Branch :=
    { id := newBranchId,
      name := "Branch " ++ toString (branchCount + 1),
      rootMessageId := fromMessageId,
      messages := [],
      isCollapsed := false,
      color := (BRANCH_COLORS.get? colorIndex).getD "",
      createdAt := now,
      model := some branchModel }
  let conversations := s.conversations.map fun conv =>
    if isActiveConv s conv then
      createBranchConv fromMessageId newBranchId newBranch now conv
    else conv
  ({ s with conversations := conversations,
            activeBranchIds := s.activeBranchIds ++ [newBranchId] },
   newBranch)

/-- The containing-conversation transform of `deleteBranch`: strip the
branch id from every message referencing it and drop the branch. -/
def deleteBranchConv (branchId : String) (now : Nat) (conv : Conversation) :
    Conversation :=
  { conv with
    messages := conv.messages.map fun msg =>
      if msg.branchIds.contains branchId then
        { msg with branchIds := msg.branchIds.filter (fun id => ¬ id = branchId) }
      else msg,
    branches := conv.branches.filter (fun b => ¬ b.id = branchId),
    updatedAt := now }

/-- `deleteBranch(branchId)`: finds the conversation containing the branch,
collects the branch messages' attachment blob ids (one `deleteBlobs` call
when non-empty), removes the branch and strips its id from the root
message's branch-id set.  Returns the new state and the list of
blob-deletion calls issued (each call being the id list passed). -/
def deleteBranch (s : ChatState) (branchId : String) (now : Nat) :
    ChatState × List (List String) :=
  match s.conversations.find? (fun c => c.branches.any (fun b => b.id == branchId)) with
  | none => (s, [])
  | some conversation =>
    match conversation.branches.find? (fun b => b.id == branchId) with
    | none => (s, [])
    | some branch =>
      let blobIds := branch.messages.flatMap attIds
      let calls := if blobIds.length > 0 then [blobIds] else []
      let conversations := s.conversations.map fun conv =>
        if conv.id == conversation.id then deleteBranchConv branchId now conv
        else conv
      ({ s with conversations := conversations,
                activeBranchIds := s.activeBranchIds.filter (fun id => ¬ id = branchId) },
       calls)

/-- All attachment blob ids reachable from a conversation, in collection
order: main-sequence messages first, then every branch's messages. -/
def collectConvBlobIds (conversation : Conversation) : List String :=
  conversation.messages.flatMap attIds ++
    conversation.branches.flatMap (fun b => b.messages.flatMap attIds)

/-- `deleteConversation(id)`: collects every attachment blob id of the
conversation (one `deleteBlobs` call when non-empty), removes the
conversation and clears the active selection when it was active.  Returns
the new state and the list of blob-deletion calls issued. -/
def deleteConversation (s : ChatState) (id : String) :
    ChatState × List (List String) :=
  let calls := match s.conversations.find? (fun c => c.id == id) with
    | some conversation =>
      let blobIds := collectConvBlobIds conversation
      if blobIds.length > 0 then [blobIds] else []
    | none => []
  let conversations := s.conversations.filter (fun c => ¬ c.id = id)
  let clearActive := s.activeConversationId == some id
  ({ s with conversations := conversations,
            activeConversationId := if clearActive then none else s.activeConversationId,
            activeBranchIds := if clearActive then [] else s.activeBranchIds },
   calls)

/-! ## Mutual-consistency invariant (spec section 3)

Clause (a): every branch id in any message's branch-id set names an
existing branch of the conversation.  Clause (b): every branch's
`rootMessageId` names a message of the main sequence. -/

/-- Clause (a) for one message against a conversation's branch set. -/
def messageBranchIdsOk (conv : Conversation) (m : Message) : Bool :=
  m.branchIds.all fun bid => conv.branches.any fun b => b.id == bid

/-- Clause (b) for one branch against a conversation's main sequence. -/
def branchRootOk (conv : Conversation) (b : Branch) : Bool :=
  conv.messages.any fun m => m.id == b.rootMessageId

/-- All messages of a conversation: main sequence plus branch sequences. -/
def allMessages (conv : Conversation) : List Message :=
  conv.messages ++ conv.branches.flatMap (fun b => b.messages)

/-- The mutual-consistency invariant of one conversation. -/
def convConsistent (conv : Conversation) : Bool :=
  (allMessages conv).all (messageBranchIdsOk conv) &&
    conv.branches.all (branchRootOk conv)

/-- The invariant over every conversation of the store state. -/
def stateConsistent (s : ChatState) : Bool :=
  s.conversations.all convConsistent

/-! ## Retry utility (`src/services/llm/utils.ts`) -/

/-- A JavaScript error value as `withRetry`/`isRetryableError` observe it:
a nullish value, a non-object primitive (inspected via `String(error)`),
or an `Error` object with a `message`, possibly carrying an `isRetryable`
property (whose value is recorded but, per the source, never read). -/
inductive ErrorValue where
  | nullish
  | primitive (s : String)
  | errObj (message : String) (hasRetryableProp : Bool) (retryableVal : Bool)
  deriving DecidableEq

/-- The `retryablePatterns` list of `isRetryableError`. -/
def retryablePatterns : List String :=
  ["network error", "timeout", "rate limit", "too many requests",
   "service unavailable", "empty response", "connection refused",
   "connection reset", "connection timeout", "read timeout",
   "socket timeout"]

/-- `message.toLowerCase()` as a character list. -/
def lowerChars (s : String) : List Char :=
  s.toList.map Char.toLower

/-- `isRetryableError(error)`: nullish values are not retryable; an object
carrying an `isRetryable` property is retryable regardless of the
property's value; otherwise the lower-cased message (or the stringified
primitive) is searched for the retryable patterns. -/
def isRetryableError : ErrorValue → Bool
  | .nullish => false
  | .primitive s =>
    if s = "" then false
    else retryablePatterns.any fun p => charsIncludes p.toList (lowerChars s)
  | .errObj message hasRetryableProp _ =>
    if hasRetryableProp then true
    else retryablePatterns.any fun p => charsIncludes p.toList (lowerChars message)

/-- Retry configuration (`DEFAULT_RETRY_CONFIG` shape).  The delay fields
take part in backoff sleeps only, which do not affect results or call
counts; they are carried for fidelity to the source configuration. -/
structure RetryConfig where
  maxAttempts : Nat
  baseDelayMs : Nat
  maxDelayMs : Nat
  backoffMultiplier : Nat
  deriving DecidableEq

def DEFAULT_RETRY_CONFIG : RetryConfig :=
  { maxAttempts := 3, baseDelayMs := 1000, maxDelayMs := 10000,
    backoffMultiplier := 2 }

/-- The attempt loop of `withRetry`.  `op n` is the outcome of the
`(n+1)`-st invocation of the wrapped operation.  `fuel` counts the
remaining loop iterations (`maxAttempts - attempt`); when it reaches `0`
the loop has exhausted without a `break`, which in the source rethrows the
initial `undefined` `lastError` (modelled as `.nullish`; reachable only
when `maxAttempts = 0`).  Returns the final outcome together with the
number of invocations performed. -/
def withRetryGo (op : Nat → Except ErrorValue α) (maxAttempts : Nat) :
    Nat → Nat → Except ErrorValue α × Nat
  | 0, attempt => (.error .nullish, attempt)
  | fuel + 1, attempt =>
    match op attempt with
    | .ok a => (.ok a, attempt + 1)
    | .error e =>
      if attempt = maxAttempts - 1 then (.error e, attempt + 1)
      else if ¬ isRetryableError e then (.error e, attempt + 1)
      else withRetryGo op maxAttempts fuel (attempt + 1)

/-- `withRetry(fn, config)`: result of the retry loop and the number of
times the operation was invoked. -/
def withRetry (op : Nat → Except ErrorValue α)
    (config : RetryConfig := DEFAULT_RETRY_CONFIG) :
    Except ErrorValue α × Nat :=
  withRetryGo op config.maxAttempts config.maxAttempts 0

/-! ## Provider adapter stream dispatch

`BaseLLMProvider.stream` wraps the abstract `streamWithRetry` in
`withRetry` with the explicit configuration `{maxAttempts: 3, baseDelayMs:
1000, maxDelayMs: 10000, backoffMultiplier: 2}`.  `OpenAIProvider`,
`AnthropicProvider` and `OpenRouterProvider` implement `streamWithRetry`
and therefore inherit the wrapper; `GoogleProvider`
(`providers/anthropic.ts`) and `XAIProvider` (`providers/openai.ts`)
declare `async stream(...)` directly, overriding the base method, so their
vendor stream body runs exactly once per `stream` call. -/

/-- The retry configuration passed by `BaseLLMProvider.stream`. -/
def baseStreamRetryConfig : RetryConfig :=
  { maxAttempts := 3, baseDelayMs := 1000, maxDelayMs := 10000,
    backoffMultiplier := 2 }

/-- Effective behaviour of `provider.stream(request, onChunk)` as a
function of the underlying vendor stream body `vendorOp` (one `Except`
outcome per invocation): the pair of the final outcome and the number of
invocations of the vendor body. -/
def adapterStream (p : ModelProvider) (vendorOp : Nat → Except ErrorValue Unit) :
    Except ErrorValue Unit × Nat :=
  match p with
  | .google => (vendorOp 0, 1)
  | .xai => (vendorOp 0, 1)
  | .openai | .anthropic | .openrouter => withRetry vendorOp baseStreamRetryConfig

/-! ## Debounced persistence coordinator (`ChatContext`) -/

/-- Debounce delay for database saves (ms). -/
def DB_SAVE_DEBOUNCE_MS : Nat := 1000

/-- State of the debounced-save machinery: the dirty conversation-id set
(`modifiedConvIds`, insertion ordered), the pending save timer's deadline
(`saveTimeoutRef`, `none` when no timer is pending), whether the initial
database load has completed (`isInitialized`, named `initDone` here), and
the `saveConversation` calls issued so far, in order. -/
structure PersistState where
  modifiedConvIds : List String
  saveTimer : Option Nat
  initDone : Bool
  writes : List Conversation
  deriving DecidableEq

/-- `Set.add` on the insertion-ordered dirty-id list. -/
def addModified (ids : List String) (id : String) : List String :=
  if ids.contains id then ids else ids ++ [id]

/-- `markModified(convId)` at time `now`: a no-op before the initial load
completes; otherwise adds the id to the dirty set and (re)starts the
debounce timer (`debouncedSave` clears any pending timer and schedules a
new one `DB_SAVE_DEBOUNCE_MS` from now). -/
def markModified (p : PersistState) (convId : String) (now : Nat) : PersistState :=
  if p.initDone then
    { p with modifiedConvIds := addModified p.modifiedConvIds convId,
             saveTimer := some (now + DB_SAVE_DEBOUNCE_MS) }
  else p

/-- The debounce timer callback: consumes the timer; when the dirty set is
non-empty, snapshots it, clears it (before any write), and saves each
dirty conversation found in the current conversation list. -/
def fireSaveTimer (p : PersistState) (conversations : List Conversation) :
    PersistState :=
  if p.modifiedConvIds.isEmpty then { p with saveTimer := none }
  else
    { p with saveTimer := none,
             modifiedConvIds := [],
             writes := p.writes ++
               p.modifiedConvIds.filterMap fun id =>
                 conversations.find? fun c => c.id == id }

/-- Conversation list together with the persistence state. -/
structure AppState where
  conversations : List Conversation
  persist : PersistState
  deriving DecidableEq

/-- One user/model-driven mutation of conversation `convId` (the
`setConversations` transform restricted to that conversation) followed by
`markModified(convId)` at time `now`. -/
def applyMutation (st : AppState) (convId : String)
    (f : Conversation → Conversation) (now : Nat) : AppState :=
  { conversations := st.conversations.map fun c => if c.id == convId then f c else c,
    persist := markModified st.persist convId now }

/-- The pending save timer fires against the current conversation list. -/
def fireSave (st : AppState) : AppState :=
  { st with persist := fireSaveTimer st.persist st.conversations }

/-! ## Throttled stream-update callback (`ChatView`) -/

/-- Throttle interval for streaming updates (ms). -/
def STREAM_UPDATE_THROTTLE_MS : Nat := 50

/-- State of `createThrottledStreamCallback`: the accumulated stream text
(`streamContentRef`), the time of the last flushed update
(`streamLastUpdateRef`), the pending deferred-update deadline
(`streamUpdateTimeoutRef`), and the content-update calls issued to the
Conversation Store so far (the content argument of each call, in order). -/
structure ThrottleState where
  content : String
  lastUpdate : Nat
  deferred : Option Nat
  updates : List String
  deriving DecidableEq

/-- Fresh throttle state for a new stream. -/
def throttleInit : ThrottleState :=
  { content := "", lastUpdate := 0, deferred := none, updates := [] }

/-- The deferred-update `setTimeout` callback, firing at time `now` (its
deadline) with the abort signal not set: consumes the timer and flushes
the accumulated content when non-empty. -/
def fireDeferredUpdate (ts : ThrottleState) (now : Nat) : ThrottleState :=
  let ts := { ts with deferred := none }
  if ts.content = "" then ts
  else { ts with lastUpdate := now, updates := ts.updates ++ [ts.content] }

/-- The throttled callback body for one `(chunk, done)` event at time
`now` (with the abort signal not set).  A final event flushes any
remaining content after cancelling the deferred update; a non-final event
accumulates the chunk and either flushes immediately (when the throttle
interval has elapsed), schedules a deferred update (when none is pending),
or does nothing more. -/
def throttleChunk (ts : ThrottleState) (chunk : String) (done : Bool)
    (now : Nat) : ThrottleState :=
  if done then
    let ts := { ts with deferred := none }
    if ts.content = "" then ts
    else { ts with updates := ts.updates ++ [ts.content] }
  else
    let ts := { ts with content := ts.content ++ chunk }
    if STREAM_UPDATE_THROTTLE_MS ≤ now - ts.lastUpdate then
      { ts with lastUpdate := now, updates := ts.updates ++ [ts.content] }
    else if ts.deferred.isNone then
      { ts with deferred := some (now + STREAM_UPDATE_THROTTLE_MS) }
    else ts

/-- Event-loop step: before handling the event at time `t`, fire the
deferred update if its deadline has passed, then run the callback body. -/
def throttleStep (ts : ThrottleState) (ev : Nat × String × Bool) : ThrottleState :=
  let t := ev.1
  let ts := match ts.deferred with
    | some d => if d ≤ t then fireDeferredUpdate ts d else ts
    | none => ts
  throttleChunk ts ev.2.1 ev.2.2 t

/-- Run a whole stream of `(time, chunk, done)` events from a fresh state. -/
def runThrottle (events : List (Nat × String × Bool)) : ThrottleState :=
  events.foldl throttleStep throttleInit

/-! ## Helper lemmas -/

/-- A guarded map leaves a list unchanged when no element satisfies the
guard. -/
theorem map_ite_id {α : Type} (p : α → Bool) (f : α → α) (l : List α)
    (h : ∀ x ∈ l, p x = false) :
    (l.map fun x => if p x then f x else x) = l := by
  induction l with
  | nil => rfl
  | cons a t ih =>
    have ha := h a (List.mem_cons_self a t)
    simp only [List.map_cons, ha, Bool.false_eq_true, if_false]
    rw [ih fun x hx => h x (List.mem_cons_of_mem a hx)]

/-- A guarded map over a list with a unique guarded element rewrites just
that element. -/
theorem map_ite_split {α : Type} (p : α → Bool) (f : α → α)
    (l1 l2 : List α) (c : α)
    (h1 : ∀ x ∈ l1, p x = false) (h2 : ∀ x ∈ l2, p x = false)
    (hc : p c = true) :
    ((l1 ++ c :: l2).map fun x => if p x then f x else x) =
      l1 ++ f c :: l2 := by
  rw [List.map_append, map_ite_id p f l1 h1, List.map_cons,
    map_ite_id p f l2 h2, hc, if_pos rfl]

/-- An initial-segment test is preserved by mapping a function over both
lists. -/
theorem charsStartWith_map (f : Char → Char) :
    ∀ {n h : List Char}, charsStartWith n h = true →
      charsStartWith (n.map f) (h.map f) = true := by
  intro n
  induction n with
  | nil => intro h _; simp [charsStartWith, List.map]
  | cons a ns ih =>
    intro h hsw
    cases h with
    | nil => simp [charsStartWith] at hsw
    | cons b hs =>
      simp only [charsStartWith, Bool.and_eq_true, beq_iff_eq] at hsw
      simp only [List.map_cons, charsStartWith, Bool.and_eq_true, beq_iff_eq]
      exact ⟨by rw [hsw.1], ih hsw.2⟩

/-- A containment test is preserved by mapping a function over both
lists. -/
theorem charsIncludes_map (f : Char → Char) :
    ∀ {n h : List Char}, charsIncludes n h = true →
      charsIncludes (n.map f) (h.map f) = true := by
  intro n h
  induction h with
  | nil =>
    intro hin
    simp only [charsIncludes, List.isEmpty_iff] at hin
    subst hin
    simp [charsIncludes, List.map]
  | cons b hs ih =>
    intro hin
    simp only [charsIncludes, Bool.or_eq_true] at hin
    simp only [List.map_cons, charsIncludes, Bool.or_eq_true]
    rcases hin with hin | hin
    · exact Or.inl (by simpa using charsStartWith_map f hin)
    · exact Or.inr (ih hin)

/-- An `Error` object without an `isRetryable` property whose message
contains `"timeout"` is classified retryable. -/
theorem timeout_isRetryable (m : String) (b : Bool)
    (h : strIncludes m "timeout" = true) :
    isRetryableError (.errObj m false b) = true := by
  simp only [isRetryableError, Bool.false_eq_true, if_false,
    List.any_eq_true]
  refine ⟨"timeout", by simp [retryablePatterns], ?_⟩
  have hmap := charsIncludes_map Char.toLower h
  have : ("timeout".toList.map Char.toLower) = "timeout".toList := by decide
  rw [strIncludes] at h
  simpa [lowerChars, this] using charsIncludes_map Char.toLower h

/-! ## Claim C3 -/

/-- C3: with the default configuration (`maxAttempts = 3`), `withRetry`
on an operation failing twice with errors whose messages contain
`"timeout"` and succeeding on the third call returns the success value
after exactly 3 invocations; on an operation that always fails with a
non-retryable error it performs exactly one invocation and rethrows that
error. -/
theorem C3_withRetry_default {α : Type} (op opBad : Nat → Except ErrorValue α)
    (v : α) (m0 m1 mb : String) (b0 b1 bb : Bool)
    (h0 : op 0 = .error (.errObj m0 false b0))
    (h1 : op 1 = .error (.errObj m1 false b1))
    (h2 : op 2 = .ok v)
    (ht0 : strIncludes m0 "timeout" = true)
    (ht1 : strIncludes m1 "timeout" = true)
    (hb : opBad 0 = .error (.errObj mb false bb))
    (hnr : isRetryableError (.errObj mb false bb) = false) :
    withRetry op DEFAULT_RETRY_CONFIG = (.ok v, 3) ∧
    withRetry opBad DEFAULT_RETRY_CONFIG = (.error (.errObj mb false bb), 1) := by
  constructor
  · simp [withRetry, DEFAULT_RETRY_CONFIG, withRetryGo, h0, h1, h2,
      timeout_isRetryable m0 b0 ht0, timeout_isRetryable m1 b1 ht1]
  · simp [withRetry, DEFAULT_RETRY_CONFIG, withRetryGo, hb, hnr]

/-- Witness for C3 at concrete operations. -/
theorem C3_withRetry_default_witness :
    withRetry
      (fun n => if n ≤ 1 then Except.error (.errObj "Request timeout" false false)
                else Except.ok 7)
      DEFAULT_RETRY_CONFIG = (.ok 7, 3) ∧
    withRetry
      (fun _ => (Except.error (.errObj "invalid api key" false false) : Except ErrorValue Nat))
      DEFAULT_RETRY_CONFIG = (.error (.errObj "invalid api key" false false), 1) :=
  C3_withRetry_default
    (fun n => if n ≤ 1 then Except.error (.errObj "Request timeout" false false)
              else Except.ok 7)
    (fun _ => Except.error (.errObj "invalid api key" false false))
    7 "Request timeout" "Request timeout" "invalid api key" false false false
    rfl rfl rfl (by decide) (by decide) rfl (by decide)

/-! ## Claim C10 -/

/-- C10: `isRetryableError` classifies any `Error` object possessing an
`isRetryable` property as retryable regardless of the property's value —
in particular when the value is `false` — so `withRetry` retries such an
error instead of rethrowing it immediately. -/
theorem C10_isRetryable_property_presence (m : String) (v : Bool)
    (op : Nat → Except ErrorValue Unit)
    (h0 : op 0 = .error (.errObj m true false))
    (h1 : op 1 = .ok ()) :
    isRetryableError (.errObj m true v) = true ∧
    withRetry op DEFAULT_RETRY_CONFIG = (.ok (), 2) := by
  constructor
  · simp [isRetryableError]
  · simp [withRetry, DEFAULT_RETRY_CONFIG, withRetryGo, h0, h1, isRetryableError]

/-- Witness for C10: an error whose `isRetryable` property is `false` is
still retried. -/
theorem C10_isRetryable_property_presence_witness :
    isRetryableError (.errObj "fatal: bad request" true false) = true ∧
    withRetry
      (fun n => if n = 0 then Except.error (.errObj "fatal: bad request" true false)
                else Except.ok ())
      DEFAULT_RETRY_CONFIG = (.ok (), 2) :=
  C10_isRetryable_property_presence "fatal: bad request" false
    (fun n => if n = 0 then Except.error (.errObj "fatal: bad request" true false)
              else Except.ok ())
    rfl rfl

/-! ## Claim C2 -/

/-- A vendor stream body that fails transiently on its first invocation
(retryable network error) and succeeds afterwards. -/
def c2VendorOp : Nat → Except ErrorValue Unit := fun n =>
  if n = 0 then .error (.errObj "network error: connection reset" false false)
  else .ok ()

/-- C2 counterexample: the Google adapter overrides `stream` directly, so
its vendor stream body runs exactly once and the transient failure is not
re-attempted, whereas the retry wrapper the claim asserts for every
adapter would have succeeded on the second attempt.  (The xAI adapter has
the same shape.) -/
theorem C2_counterexample :
    adapterStream .google c2VendorOp =
      (.error (.errObj "network error: connection reset" false false), 1) ∧
    adapterStream .xai c2VendorOp =
      (.error (.errObj "network error: connection reset" false false), 1) ∧
    withRetry c2VendorOp baseStreamRetryConfig = (.ok (), 2) :=
  ⟨rfl, rfl, by
    have hr : isRetryableError
        (.errObj "network error: connection reset" false false) = true := by decide
    simp [withRetry, baseStreamRetryConfig, withRetryGo, c2VendorOp, hr]⟩

/-- C2 amended: the stream operation of the OpenAI, Anthropic and
OpenRouter adapters is wrapped in automatic retry with 3 attempts, base
delay 1000 ms, backoff multiplier 2 and max delay 10000 ms (the
`BaseLLMProvider` configuration, equal to the default retry
configuration), so a transient failure followed by a success yields
success after 2 invocations; the Google and xAI adapters override `stream`
directly, invoke the vendor stream exactly once, and propagate the
transient failure without any retry. -/
theorem C2_adapter_retry_coverage (vendorOp : Nat → Except ErrorValue Unit)
    (e : ErrorValue)
    (hfail : vendorOp 0 = .error e)
    (hretry : isRetryableError e = true)
    (hok : vendorOp 1 = .ok ()) :
    adapterStream .openai vendorOp = (.ok (), 2) ∧
    adapterStream .anthropic vendorOp = (.ok (), 2) ∧
    adapterStream .openrouter vendorOp = (.ok (), 2) ∧
    adapterStream .google vendorOp = (.error e, 1) ∧
    adapterStream .xai vendorOp = (.error e, 1) ∧
    baseStreamRetryConfig = DEFAULT_RETRY_CONFIG := by
  have hrun : withRetry vendorOp baseStreamRetryConfig = (.ok (), 2) := by
    simp [withRetry, baseStreamRetryConfig, withRetryGo, hfail, hretry, hok]
  exact ⟨hrun, hrun, hrun, by simp [adapterStream, hfail], by simp [adapterStream, hfail], rfl⟩

/-- Witness for C2 amended at a concrete transiently-failing vendor
stream. -/
theorem C2_adapter_retry_coverage_witness :
    adapterStream .openai c2VendorOp = (.ok (), 2) ∧
    adapterStream .anthropic c2VendorOp = (.ok (), 2) ∧
    adapterStream .openrouter c2VendorOp = (.ok (), 2) ∧
    adapterStream .google c2VendorOp =
      (.error (.errObj "network error: connection reset" false false), 1) ∧
    adapterStream .xai c2VendorOp =
      (.error (.errObj "network error: connection reset" false false), 1) ∧
    baseStreamRetryConfig = DEFAULT_RETRY_CONFIG :=
  C2_adapter_retry_coverage c2VendorOp
    (.errObj "network error: connection reset" false false)
    rfl (by decide) rfl

/-! ## String facts used for the title derivation -/

theorem string_mk_toList (s : String) : String.mk s.toList = s := by
  cases s
  rfl

theorem string_append_empty (s : String) : s ++ "" = s := by
  cases s
  simp [String.append]

theorem string_mk_length (l : List Char) : (String.mk l).length = l.length := rfl

/-! ## Claim C9 -/

def c9Model : Model :=
  { id := "gpt-5.2", name := "GPT-5.2", provider := .openai,
    description := "Latest OpenAI flagship model", supportsWebSearch := some true }

/-- A conversation whose only message is an assistant message: the next
user message is the conversation's first user message. -/
def c9Conv : Conversation :=
  { id := "c1", title := "New Conversation",
    messages := [{ id := "m0", content := "Hi, how can I help?",
                   role := .assistant, timestamp := 1, parentId := none,
                   branchIds := [], model := some c9Model }],
    branches := [], createdAt := 0, updatedAt := 1, model := c9Model }

def c9State : ChatState :=
  { conversations := [c9Conv], activeConversationId := some "c1",
    activeBranchIds := [], selectedModel := c9Model }

/-- C9 counterexample: the conversation contains no user message, so the
incoming `addMessage("Explain recursion", "user")` is its first user
message, yet the title stays `"New Conversation"` — the source derives the
title only when the message list is entirely empty
(`conv.messages.length === 0`), not on the first user message. -/
theorem C9_counterexample :
    (∀ m ∈ c9Conv.messages, m.role = .assistant) ∧
    ((addMessage c9State "Explain recursion" .user none none none "m1" 5).fst.conversations.map
        fun c => c.title) = ["New Conversation"] := by
  decide

/-- The title-derivation expression of `addMessage`
(`content.slice(0, 50) + (content.length > 50 ? '...' : '')`) written as a
case split on the content length. -/
theorem title_slice_eq (content : String) :
    String.mk (content.toList.take 50) ++
        (if 50 < content.toList.length then "..." else "") =
      if content.toList.length ≤ 50 then content
      else String.mk (content.toList.take 50) ++ "..." := by
  by_cases h : content.toList.length ≤ 50
  · rw [if_pos h, if_neg (by omega), List.take_of_length_le h, string_mk_toList,
      string_append_empty]
  · rw [if_neg h, if_pos (by omega)]

/-- C9 amended: when a user message is added to a conversation whose
message list is empty, the title becomes the content itself when it has at
most 50 characters, and the first 50 characters followed by `"..."` (53
characters in total) when it is longer; a conversation that already
contains any message (even a lone assistant message) keeps its title. -/
theorem C9_title_on_empty_conversation (s : ChatState) (cid content : String)
    (parentId : Option String) (atts : Option (List Attachment))
    (newMsgId : String) (now : Nat)
    (cpre cpost : List Conversation) (conv : Conversation)
    (hconvs : s.conversations = cpre ++ conv :: cpost)
    (hpre : ∀ c ∈ cpre, c.id ≠ cid) (hpost : ∀ c ∈ cpost, c.id ≠ cid)
    (hcid : conv.id = cid)
    (hempty : conv.messages = []) :
    ((addMessage s content .user parentId (some cid) atts newMsgId now).fst.conversations.map
        fun c => c.title) =
      cpre.map (fun c => c.title) ++
        (if content.toList.length ≤ 50 then content
         else String.mk (content.toList.take 50) ++ "...") ::
          cpost.map (fun c => c.title) ∧
    (content.toList.length = 100 →
      (if content.toList.length ≤ 50 then content
       else String.mk (content.toList.take 50) ++ "...").length = 53) := by
  refine ⟨?_, ?_⟩
  · have hc : (fun c : Conversation => some c.id == some cid) conv = true := by
      simp [hcid]
    have h1 : ∀ x ∈ cpre, (fun c : Conversation => some c.id == some cid) x = false := by
      intro x hx
      simp [hpre x hx]
    have h2 : ∀ x ∈ cpost, (fun c : Conversation => some c.id == some cid) x = false := by
      intro x hx
      simp [hpost x hx]
    simp only [addMessage]
    rw [hconvs]
    rw [map_ite_split (fun c : Conversation => some c.id == some cid)
      (fun conv : Conversation =>
        { conv with
          messages := conv.messages ++
            [{ id := newMsgId, content := content, role := Role.user,
               timestamp := now, parentId := parentId, branchIds := [],
               model := if Role.user = Role.assistant then some s.selectedModel else none,
               attachments := atts }],
          title :=
            if conv.messages.length = 0 ∧ True then
              String.mk (content.toList.take 50) ++
                (if 50 < content.toList.length then "..." else "")
            else conv.title,
          updatedAt := now })
      cpre cpost conv h1 h2 hc]
    rw [List.map_append, List.map_cons]
    simp only [hempty, List.length_nil, and_self, if_pos, title_slice_eq]
  · intro h100
    rw [if_neg (by omega)]
    rw [String.length_append, string_mk_length, List.length_take, h100]
    rfl

def c9EmptyConv : Conversation :=
  { id := "c2", title := "New Conversation", messages := [], branches := [],
    createdAt := 0, updatedAt := 0, model := c9Model }

def c9EmptyState : ChatState :=
  { conversations := [c9EmptyConv], activeConversationId := some "c2",
    activeBranchIds := [], selectedModel := c9Model }

/-- A 100-character user message. -/
def c9LongContent : String := String.mk (List.replicate 100 'a')

/-- Witness for C9 amended: a 100-character first message on an empty
conversation yields a 53-character truncated title. -/
theorem C9_title_on_empty_conversation_witness :
    ((addMessage c9EmptyState c9LongContent .user none (some "c2") none "m1" 5).fst.conversations.map
        fun c => c.title) =
      [String.mk (c9LongContent.toList.take 50) ++ "..."] ∧
    (String.mk (c9LongContent.toList.take 50) ++ "...").length = 53 := by
  have h := C9_title_on_empty_conversation c9EmptyState "c2" c9LongContent none none
    "m1" 5 [] [] c9EmptyConv rfl (by simp) (by simp) rfl rfl
  refine ⟨?_, ?_⟩
  · have h1 := h.1
    rw [if_neg (by decide)] at h1
    simpa using h1
  · have h2 := h.2 (by decide)
    rwa [if_neg (by decide)] at h2

/-! ## Claim C6 -/

def c6Model : Model :=
  { id := "claude-opus-4-5", name := "Opus 4.5", provider := .anthropic,
    description := "Most powerful Claude model", supportsWebSearch := some true }

/-- A conversation holding zero attachment references. -/
def c6NoAttConv : Conversation :=
  { id := "c1", title := "t",
    messages := [{ id := "m1", content := "hi", role := .user, timestamp := 1,
                   parentId := none, branchIds := [] }],
    branches := [], createdAt := 0, updatedAt := 0, model := c6Model }

def c6NoAttState : ChatState :=
  { conversations := [c6NoAttConv], activeConversationId := some "c1",
    activeBranchIds := [], selectedModel := c6Model }

/-- C6 counterexample: deleting a conversation with zero attachment
references issues zero blob-deletion calls, not the exactly-one call the
claim asserts for every conversation (`deleteBlobs` is only invoked when
the collected id list is non-empty). -/
theorem C6_counterexample :
    collectConvBlobIds c6NoAttConv = [] ∧
    (deleteConversation c6NoAttState "c1").snd = [] := by
  decide

/-- C6 amended: deleting a conversation holding at least one attachment
reference issues exactly one blob-deletion call, whose id list is the
concatenation of all attachment ids of the main-sequence messages followed
by all attachment ids of the branch messages; that list covers an id
exactly when some message of the conversation (main sequence or branch)
carries an attachment with that id — no omissions and no extraneous ids.
The code does not deduplicate, so the list is duplicate-free exactly when
the attachment reference ids are pairwise distinct; a conversation with
zero attachment references triggers no call at all. -/
theorem C6_delete_conversation_blobs (s : ChatState) (cid : String)
    (conversation : Conversation)
    (hfind : s.conversations.find? (fun c => c.id == cid) = some conversation)
    (hne : collectConvBlobIds conversation ≠ []) :
    (deleteConversation s cid).snd = [collectConvBlobIds conversation] ∧
    ∀ bid : String, bid ∈ collectConvBlobIds conversation ↔
      ∃ m : Message, (m ∈ conversation.messages ∨
          ∃ b ∈ conversation.branches, m ∈ b.messages) ∧ bid ∈ attIds m := by
  constructor
  · simp only [deleteConversation, hfind]
    rw [if_pos (by simpa [List.length_pos] using hne)]
  · intro bid
    simp only [collectConvBlobIds, List.mem_append, List.mem_flatMap]
    constructor
    · rintro (⟨m, hm, hbid⟩ | ⟨b, hb, m, hm, hbid⟩)
      · exact ⟨m, Or.inl hm, hbid⟩
      · exact ⟨m, Or.inr ⟨b, hb, hm⟩, hbid⟩
    · rintro ⟨m, hm | ⟨b, hb, hm⟩, hbid⟩
      · exact Or.inl ⟨m, hm, hbid⟩
      · exact Or.inr ⟨b, hb, m, hm, hbid⟩

def c6Att1 : Attachment :=
  { id := "att-1", name := "a.png", attType := "image",
    mimeType := "image/png", size := 10 }

def c6Att2 : Attachment :=
  { id := "att-2", name := "b.pdf", attType := "document",
    mimeType := "application/pdf", size := 20 }

def c6MainMsg : Message :=
  { id := "m1", content := "hi", role := .user, timestamp := 1,
    parentId := none, branchIds := ["b1"], attachments := some [c6Att1] }

def c6BranchMsg : Message :=
  { id := "m2", content := "x", role := .user, timestamp := 2,
    parentId := none, branchIds := [], attachments := some [c6Att2] }

def c6TheBranch : Branch :=
  { id := "b1", name := "Branch 1", rootMessageId := "m1",
    messages := [c6BranchMsg], isCollapsed := false,
    color := "hsl(217 91% 60%)", createdAt := 1 }

/-- A conversation with one main-sequence attachment and one branch
attachment. -/
def c6AttConv : Conversation :=
  { id := "c1", title := "t", messages := [c6MainMsg],
    branches := [c6TheBranch], createdAt := 0, updatedAt := 0,
    model := c6Model }

def c6AttState : ChatState :=
  { conversations := [c6AttConv], activeConversationId := some "c1",
    activeBranchIds := [], selectedModel := c6Model }

/-- Witness for C6 amended: one call covering both attachment ids. -/
theorem C6_delete_conversation_blobs_witness :
    (deleteConversation c6AttState "c1").snd = [collectConvBlobIds c6AttConv] ∧
    ("att-2" ∈ collectConvBlobIds c6AttConv ↔
      ∃ m : Message, (m ∈ c6AttConv.messages ∨
          ∃ b ∈ c6AttConv.branches, m ∈ b.messages) ∧ "att-2" ∈ attIds m) := by
  have h := C6_delete_conversation_blobs c6AttState "c1" c6AttConv (by decide) (by decide)
  exact ⟨h.1, h.2 "att-2"⟩

/-! ## Claim C4 -/

/-- Mapping an active-conversation transform over a conversation list in
which exactly the middle conversation is active rewrites just that
conversation. -/
theorem map_active_split (s : ChatState) (f : Conversation → Conversation)
    (cpre cpost : List Conversation) (conv : Conversation) (cid : String)
    (hact : s.activeConversationId = some cid)
    (h1 : ∀ c ∈ cpre, c.id ≠ cid) (h2 : ∀ c ∈ cpost, c.id ≠ cid)
    (hc : conv.id = cid) :
    ((cpre ++ conv :: cpost).map fun c => if isActiveConv s c then f c else c) =
      cpre ++ f conv :: cpost := by
  refine map_ite_split (isActiveConv s) f cpre cpost conv ?_ ?_ ?_
  · intro x hx
    simp [isActiveConv, hact, h1 x hx]
  · intro x hx
    simp [isActiveConv, hact, h2 x hx]
  · simp [isActiveConv, hact, hc]

/-- C4: `editMessage` on the message at index `i` of a timeline truncates
that timeline to length `i+1`, replacing the content at `i`, and modifies
no other timeline.  First conjunct: the main sequence of the active
conversation (branches and all other conversations unchanged).  Second
conjunct: a branch timeline (the main sequence, all other branches and all
other conversations unchanged). -/
theorem C4_editMessage_truncates :
    (∀ (s : ChatState) (cid mid newContent : String) (now : Nat)
       (cpre cpost : List Conversation) (conv : Conversation),
      s.activeConversationId = some cid →
      s.conversations = cpre ++ conv :: cpost →
      (∀ c ∈ cpre, c.id ≠ cid) → (∀ c ∈ cpost, c.id ≠ cid) →
      conv.id = cid →
      conv.messages.findIdx (fun m => m.id == mid) < conv.messages.length →
      ∃ upd : Message,
        upd.content = newContent ∧ upd.id = mid ∧
        (conv.messages.take (conv.messages.findIdx fun m => m.id == mid) ++
          [upd]).length =
            (conv.messages.findIdx fun m => m.id == mid) + 1 ∧
        (conv.messages.take (conv.messages.findIdx fun m => m.id == mid) ++
          [upd]).getLast? = some upd ∧
        (editMessage s mid newContent none now).conversations =
          cpre ++ ({ conv with
            messages := conv.messages.take
                (conv.messages.findIdx fun m => m.id == mid) ++ [upd],
            updatedAt := now }) :: cpost) ∧
    (∀ (s : ChatState) (cid bid mid newContent : String) (now : Nat)
       (cpre cpost : List Conversation) (conv : Conversation)
       (bpre bpost : List Branch) (b : Branch),
      s.activeConversationId = some cid →
      s.conversations = cpre ++ conv :: cpost →
      (∀ c ∈ cpre, c.id ≠ cid) → (∀ c ∈ cpost, c.id ≠ cid) →
      conv.id = cid →
      conv.branches = bpre ++ b :: bpost →
      (∀ x ∈ bpre, x.id ≠ bid) → (∀ x ∈ bpost, x.id ≠ bid) →
      b.id = bid →
      b.messages.findIdx (fun m => m.id == mid) < b.messages.length →
      ∃ upd : Message,
        upd.content = newContent ∧ upd.id = mid ∧
        (editMessage s mid newContent (some bid) now).conversations =
          cpre ++ ({ conv with
            branches := bpre ++ ({ b with
              messages := b.messages.take
                  (b.messages.findIdx fun m => m.id == mid) ++ [upd] }) :: bpost,
            updatedAt := now }) :: cpost) := by
  constructor
  · intro s cid mid newContent now cpre cpost conv hact hconvs hpre hpost hcid hlt
    refine ⟨{ conv.messages.get ⟨_, hlt⟩ with content := newContent }, rfl, ?_, ?_, ?_, ?_⟩
    · have hp := @List.findIdx_getElem _ (fun m => m.id == mid) conv.messages hlt
      simpa [List.get_eq_getElem] using hp
    · simp [List.length_take, Nat.min_eq_left (Nat.le_of_lt hlt)]
    · simp
    · simp only [editMessage]
      rw [hconvs, map_active_split s (editMessageMainConv mid newContent now)
        cpre cpost conv cid hact hpre hpost hcid]
      rw [editMessageMainConv, dif_pos hlt]
  · intro s cid bid mid newContent now cpre cpost conv bpre bpost b hact hconvs
      hpre hpost hcid hbr hbpre hbpost hbid hlt
    refine ⟨{ b.messages.get ⟨_, hlt⟩ with content := newContent }, rfl, ?_, ?_⟩
    · have hp := @List.findIdx_getElem _ (fun m => m.id == mid) b.messages hlt
      simpa [List.get_eq_getElem] using hp
    · simp only [editMessage]
      rw [hconvs, map_active_split s (editMessageBranchConv bid mid newContent now)
        cpre cpost conv cid hact hpre hpost hcid]
      rw [editMessageBranchConv]
      rw [hbr, map_ite_split (fun x : Branch => x.id == bid)
        (fun x => { x with messages := truncateEdit x.messages mid newContent })
        bpre bpost b (fun x hx => by simp [hbpre x hx])
        (fun x hx => by simp [hbpost x hx]) (by simp [hbid])]
      rw [truncateEdit, dif_pos hlt]

def c4Model : Model :=
  { id := "gpt-5-mini", name := "GPT-5 mini", provider := .openai,
    description := "Fast and efficient", supportsWebSearch := some true }

def c4M1 : Message :=
  { id := "m1", content := "A", role := .user, timestamp := 1,
    parentId := none, branchIds := [] }

def c4M2 : Message :=
  { id := "m2", content := "B", role := .assistant, timestamp := 2,
    parentId := none, branchIds := [] }

def c4M3 : Message :=
  { id := "m3", content := "C", role := .user, timestamp := 3,
    parentId := none, branchIds := [] }

def c4BM1 : Message :=
  { id := "bm1", content := "X", role := .user, timestamp := 4,
    parentId := none, branchIds := [] }

def c4BM2 : Message :=
  { id := "bm2", content := "Y", role := .assistant, timestamp := 5,
    parentId := none, branchIds := [] }

def c4Branch : Branch :=
  { id := "b1", name := "Branch 1", rootMessageId := "m2",
    messages := [c4BM1, c4BM2], isCollapsed := false,
    color := "hsl(217 91% 60%)", createdAt := 4 }

def c4Conv : Conversation :=
  { id := "c1", title := "t", messages := [c4M1, c4M2, c4M3],
    branches := [c4Branch], createdAt := 0, updatedAt := 0, model := c4Model }

def c4State : ChatState :=
  { conversations := [c4Conv], activeConversationId := some "c1",
    activeBranchIds := [], selectedModel := c4Model }

/-- Witness for C4 at a concrete three-message conversation (main edit at
index 1) and a two-message branch (branch edit at index 1). -/
theorem C4_editMessage_truncates_witness :
    (∃ upd : Message, upd.content = "edited" ∧ upd.id = "m2" ∧
      (c4Conv.messages.take (c4Conv.messages.findIdx fun m => m.id == "m2") ++
        [upd]).length =
          (c4Conv.messages.findIdx fun m => m.id == "m2") + 1 ∧
      (c4Conv.messages.take (c4Conv.messages.findIdx fun m => m.id == "m2") ++
        [upd]).getLast? = some upd ∧
      (editMessage c4State "m2" "edited" none 9).conversations =
        [] ++ ({ c4Conv with
          messages := c4Conv.messages.take
              (c4Conv.messages.findIdx fun m => m.id == "m2") ++ [upd],
          updatedAt := 9 }) :: []) ∧
    (∃ upd : Message, upd.content = "edited2" ∧ upd.id = "bm2" ∧
      (editMessage c4State "bm2" "edited2" (some "b1") 9).conversations =
        [] ++ ({ c4Conv with
          branches := [] ++ ({ c4Branch with
            messages := c4Branch.messages.take
                (c4Branch.messages.findIdx fun m => m.id == "bm2") ++
              [upd] }) :: [],
          updatedAt := 9 }) :: []) :=
  ⟨C4_editMessage_truncates.1 c4State "c1" "m2" "edited" 9 [] [] c4Conv rfl rfl
      (by simp) (by simp) rfl (by decide),
   C4_editMessage_truncates.2 c4State "c1" "b1" "bm2" "edited2" 9 [] [] c4Conv
      [] [] c4Branch rfl rfl (by simp) (by simp) rfl rfl (by simp) (by simp)
      rfl (by decide)⟩

/-! ## Claim C7 -/

/-- C7: for a message `m` of the active conversation's main sequence,
`createBranch(m.id)` yields a branch with `rootMessageId = m.id`, appends
the branch id to `m`'s branch-id set and the branch to the conversation's
branch set; a subsequent `deleteBranch` of that branch exactly reverses
both effects (only `updatedAt` advances), and also restores the open
branch set. -/
theorem C7_create_delete_branch_roundtrip
    (s : ChatState) (cid fromId nb : String) (rand now now2 : Nat)
    (cpre cpost : List Conversation) (conv : Conversation)
    (mpre mpost : List Message) (m : Message)
    (hact : s.activeConversationId = some cid)
    (hconvs : s.conversations = cpre ++ conv :: cpost)
    (hpre : ∀ c ∈ cpre, c.id ≠ cid) (hpost : ∀ c ∈ cpost, c.id ≠ cid)
    (hcid : conv.id = cid)
    (hmsgs : conv.messages = mpre ++ m :: mpost)
    (hmid : m.id = fromId)
    (hmpre : ∀ x ∈ mpre, x.id ≠ fromId) (hmpost : ∀ x ∈ mpost, x.id ≠ fromId)
    (hfreshB : ∀ c ∈ s.conversations, ∀ b ∈ c.branches, b.id ≠ nb)
    (hfreshM : ∀ x ∈ conv.messages, nb ∉ x.branchIds)
    (hfreshA : nb ∉ s.activeBranchIds) :
    (createBranch s fromId nb rand now).snd.rootMessageId = fromId ∧
    (createBranch s fromId nb rand now).snd.id = nb ∧
    (createBranch s fromId nb rand now).fst.conversations =
      cpre ++ ({ conv with
        messages := mpre ++ ({ m with branchIds := m.branchIds ++ [nb] }) :: mpost,
        branches := conv.branches ++ [(createBranch s fromId nb rand now).snd],
        updatedAt := now }) :: cpost ∧
    (deleteBranch (createBranch s fromId nb rand now).fst nb now2).fst.conversations =
      cpre ++ ({ conv with updatedAt := now2 }) :: cpost ∧
    (deleteBranch (createBranch s fromId nb rand now).fst nb now2).fst.activeBranchIds =
      s.activeBranchIds := by
  have hroot : (createBranch s fromId nb rand now).snd.rootMessageId = fromId := rfl
  have hbid : (createBranch s fromId nb rand now).snd.id = nb := rfl
  have hbmsgs : (createBranch s fromId nb rand now).snd.messages = [] := rfl
  have hmapconv :
      (createBranch s fromId nb rand now).fst.conversations =
        s.conversations.map fun c =>
          if isActiveConv s c then
            createBranchConv fromId nb (createBranch s fromId nb rand now).snd now c
          else c := rfl
  have hconvmsgs :
      (conv.messages.map fun msg =>
        if msg.id == fromId then
          { msg with branchIds := msg.branchIds ++ [nb] }
        else msg) =
      mpre ++ ({ m with branchIds := m.branchIds ++ [nb] }) :: mpost := by
    rw [hmsgs]
    exact map_ite_split (fun msg : Message => msg.id == fromId)
      (fun msg => { msg with branchIds := msg.branchIds ++ [nb] })
      mpre mpost m (fun x hx => by simp [hmpre x hx])
      (fun x hx => by simp [hmpost x hx]) (by simp [hmid])
  have hconv1 :
      createBranchConv fromId nb (createBranch s fromId nb rand now).snd now conv =
        { conv with
          messages := mpre ++ ({ m with branchIds := m.branchIds ++ [nb] }) :: mpost,
          branches := conv.branches ++ [(createBranch s fromId nb rand now).snd],
          updatedAt := now } := by
    rw [createBranchConv, hconvmsgs]
  have hs1 :
      (createBranch s fromId nb rand now).fst.conversations =
        cpre ++ ({ conv with
          messages := mpre ++ ({ m with branchIds := m.branchIds ++ [nb] }) :: mpost,
          branches := conv.branches ++ [(createBranch s fromId nb rand now).snd],
          updatedAt := now }) :: cpost := by
    rw [hmapconv, hconvs,
      map_active_split s
        (createBranchConv fromId nb (createBranch s fromId nb rand now).snd now)
        cpre cpost conv cid hact hpre hpost hcid, hconv1]
  have hfind1 :
      (createBranch s fromId nb rand now).fst.conversations.find?
          (fun c => c.branches.any fun b => b.id == nb) =
        some ({ conv with
          messages := mpre ++ ({ m with branchIds := m.branchIds ++ [nb] }) :: mpost,
          branches := conv.branches ++ [(createBranch s fromId nb rand now).snd],
          updatedAt := now }) := by
    rw [hs1, List.find?_append]
    have hnone : cpre.find? (fun c => c.branches.any fun b => b.id == nb) = none := by
      rw [List.find?_eq_none]
      intro x hx
      simp only [List.any_eq_true, beq_iff_eq, not_exists, not_and]
      intro b hb
      exact hfreshB x (by rw [hconvs]; exact List.mem_append_left _ hx) b hb
    rw [hnone]
    simp only [Option.none_or]
    rw [List.find?_cons_of_pos]
    simp [hbid]
  have hfind2 :
      (List.find? (fun b => b.id == nb)
          (conv.branches ++ [(createBranch s fromId nb rand now).snd])) =
        some (createBranch s fromId nb rand now).snd := by
    rw [List.find?_append]
    have hnone : conv.branches.find? (fun b => b.id == nb) = none := by
      rw [List.find?_eq_none]
      intro b hb
      simp only [beq_iff_eq]
      exact hfreshB conv
        (by rw [hconvs]; exact List.mem_append_right _ (List.mem_cons_self _ _)) b hb
    rw [hnone]
    simp [List.find?, hbid]
  have hfm : m.branchIds.filter (fun id => ¬ id = nb) = m.branchIds := by
    rw [List.filter_eq_self]
    intro a ha
    simp only [decide_eq_true_eq]
    intro haeq
    exact absurd (haeq ▸ ha)
      (hfreshM m (by rw [hmsgs]; exact List.mem_append_right _ (List.mem_cons_self _ _)))
  have hnbf : ([nb].filter fun id => ¬ id = nb) = [] := by simp
  have hmsgs1 :
      ((mpre ++ ({ m with branchIds := m.branchIds ++ [nb] }) :: mpost).map fun msg =>
        if msg.branchIds.contains nb then
          { msg with branchIds := msg.branchIds.filter (fun id => ¬ id = nb) }
        else msg) = mpre ++ m :: mpost := by
    rw [map_ite_split (fun msg : Message => msg.branchIds.contains nb)
      (fun msg => { msg with branchIds := msg.branchIds.filter (fun id => ¬ id = nb) })
      mpre mpost ({ m with branchIds := m.branchIds ++ [nb] })
      (fun x hx => by
        simp only [List.contains_eq_any_beq, List.any_eq_true, beq_iff_eq,
          Bool.eq_false_iff, ne_eq, not_exists, not_and]
        intro y hy hywrong
        exact absurd (hywrong ▸ hy)
          (hfreshM x (by rw [hmsgs]; exact List.mem_append_left _ hx)))
      (fun x hx => by
        simp only [List.contains_eq_any_beq, List.any_eq_true, beq_iff_eq,
          Bool.eq_false_iff, ne_eq, not_exists, not_and]
        intro y hy hywrong
        exact absurd (hywrong ▸ hy)
          (hfreshM x (by rw [hmsgs]; exact List.mem_append_right _ (List.mem_cons_of_mem _ hx))))
      (by simp [List.contains_eq_any_beq])]
    show mpre ++ ({ m with branchIds :=
        (m.branchIds ++ [nb]).filter (fun id => ¬ id = nb) }) :: mpost =
      mpre ++ m :: mpost
    rw [List.filter_append, hfm, hnbf, List.append_nil]
  have hbr1 :
      ((conv.branches ++ [(createBranch s fromId nb rand now).snd]).filter
        fun b => ¬ b.id = nb) = conv.branches := by
    rw [List.filter_append]
    have hfb : conv.branches.filter (fun b => ¬ b.id = nb) = conv.branches := by
      rw [List.filter_eq_self]
      intro b hb
      simp only [decide_eq_true_eq]
      exact hfreshB conv
        (by rw [hconvs]; exact List.mem_append_right _ (List.mem_cons_self _ _)) b hb
    have hfb2 : ([(createBranch s fromId nb rand now).snd].filter
        fun b => ¬ b.id = nb) = [] := by
      simp [hbid]
    rw [hfb, hfb2, List.append_nil]
  refine ⟨hroot, hbid, hs1, ?_, ?_⟩
  · simp only [deleteBranch, hfind1, hfind2]
    rw [hs1]
    rw [map_ite_split (fun c : Conversation => c.id == conv.id)
      (deleteBranchConv nb now2) cpre cpost
      ({ conv with
        messages := mpre ++ ({ m with branchIds := m.branchIds ++ [nb] }) :: mpost,
        branches := conv.branches ++ [(createBranch s fromId nb rand now).snd],
        updatedAt := now })
      (fun x hx => by simp [hcid, hpre x hx]) (fun x hx => by simp [hcid, hpost x hx])
      (by simp)]
    show cpre ++ deleteBranchConv nb now2 ({ conv with
        messages := mpre ++ ({ m with branchIds := m.branchIds ++ [nb] }) :: mpost,
        branches := conv.branches ++ [(createBranch s fromId nb rand now).snd],
        updatedAt := now }) :: cpost =
      cpre ++ ({ conv with updatedAt := now2 }) :: cpost
    rw [deleteBranchConv]
    show cpre ++ ({ conv with
        messages := (mpre ++ ({ m with branchIds := m.branchIds ++ [nb] }) :: mpost).map
          fun msg => if msg.branchIds.contains nb then
            { msg with branchIds := msg.branchIds.filter (fun id => ¬ id = nb) }
          else msg,
        branches := (conv.branches ++ [(createBranch s fromId nb rand now).snd]).filter
          fun b => ¬ b.id = nb,
        updatedAt := now2 }) :: cpost =
      cpre ++ ({ conv with updatedAt := now2 }) :: cpost
    rw [hmsgs1, hbr1, ← hmsgs]
  · simp only [deleteBranch, hfind1, hfind2]
    have hab : (createBranch s fromId nb rand now).fst.activeBranchIds =
        s.activeBranchIds ++ [nb] := rfl
    show ((createBranch s fromId nb rand now).fst.activeBranchIds.filter
      fun id => ¬ id = nb) = s.activeBranchIds
    rw [hab, List.filter_append, hnbf, List.append_nil, List.filter_eq_self]
    intro a ha
    simp only [decide_eq_true_eq]
    intro haeq
    exact absurd (haeq ▸ ha) hfreshA

def c7Model : Model :=
  { id := "claude-sonnet-4-5", name := "Sonnet 4.5", provider := .anthropic,
    description := "Balanced performance and speed", supportsWebSearch := some true }

def c7Msg : Message :=
  { id := "m1", content := "hello", role := .user, timestamp := 1,
    parentId := none, branchIds := [] }

def c7Conv : Conversation :=
  { id := "c1", title := "t", messages := [c7Msg], branches := [],
    createdAt := 0, updatedAt := 0, model := c7Model }

def c7State : ChatState :=
  { conversations := [c7Conv], activeConversationId := some "c1",
    activeBranchIds := [], selectedModel := c7Model }

/-- Witness for C7 at a concrete one-message conversation. -/
theorem C7_create_delete_branch_roundtrip_witness :
    (createBranch c7State "m1" "branch-9" 0 10).snd.rootMessageId = "m1" ∧
    (createBranch c7State "m1" "branch-9" 0 10).snd.id = "branch-9" ∧
    (createBranch c7State "m1" "branch-9" 0 10).fst.conversations =
      [] ++ ({ c7Conv with
        messages := [] ++ ({ c7Msg with branchIds := c7Msg.branchIds ++ ["branch-9"] }) :: [],
        branches := c7Conv.branches ++ [(createBranch c7State "m1" "branch-9" 0 10).snd],
        updatedAt := 10 }) :: [] ∧
    (deleteBranch (createBranch c7State "m1" "branch-9" 0 10).fst "branch-9" 20).fst.conversations =
      [] ++ ({ c7Conv with updatedAt := 20 }) :: [] ∧
    (deleteBranch (createBranch c7State "m1" "branch-9" 0 10).fst "branch-9" 20).fst.activeBranchIds =
      c7State.activeBranchIds :=
  C7_create_delete_branch_roundtrip c7State "c1" "m1" "branch-9" 0 10 20
    [] [] c7Conv [] [] c7Msg rfl rfl (by simp) (by simp) rfl rfl rfl
    (by simp) (by simp) (by decide) (by decide) (by decide)

/-! ## Claim C5 -/

/-- Variant of `map_ite_split` that does not require the tail to be
guard-free. -/
theorem map_ite_keep {α : Type} (p : α → Bool) (f : α → α)
    (l1 l2 : List α) (c : α)
    (h1 : ∀ x ∈ l1, p x = false) (hc : p c = true) :
    ((l1 ++ c :: l2).map fun x => if p x then f x else x) =
      l1 ++ f c :: l2.map fun x => if p x then f x else x := by
  rw [List.map_append, map_ite_id p f l1 h1, List.map_cons, hc, if_pos rfl]

/-- C5: three rapid mutations of one conversation inside a single debounce
window leave exactly the one conversation dirty with the trailing-edge
timer at `t3 + DB_SAVE_DEBOUNCE_MS` (each mutation restarts it); when that
timer fires, exactly one `saveConversation` write is issued, whose
snapshot is the conversation's state after the last of the three
mutations, and the dirty set is cleared by the fire (the callback
snapshots then clears the set before writing).  Second conjunct: before
the initial load completes (`isInitialized` false), `markModified` marks
nothing dirty and starts no timer. -/
theorem C5_debounced_save :
    (∀ (conversations : List Conversation) (p : PersistState) (cid : String)
       (conv : Conversation) (cpre cpost : List Conversation)
       (f1 f2 f3 : Conversation → Conversation) (t1 t2 t3 : Nat),
      p.initDone = true →
      p.modifiedConvIds = [] →
      conversations = cpre ++ conv :: cpost →
      conv.id = cid →
      (∀ c ∈ cpre, c.id ≠ cid) →
      (f1 conv).id = cid →
      (f2 (f1 conv)).id = cid →
      (f3 (f2 (f1 conv))).id = cid →
      (applyMutation (applyMutation (applyMutation ⟨conversations, p⟩ cid f1 t1)
          cid f2 t2) cid f3 t3).persist.modifiedConvIds = [cid] ∧
      (applyMutation (applyMutation (applyMutation ⟨conversations, p⟩ cid f1 t1)
          cid f2 t2) cid f3 t3).persist.saveTimer =
        some (t3 + DB_SAVE_DEBOUNCE_MS) ∧
      (fireSave (applyMutation (applyMutation (applyMutation ⟨conversations, p⟩
          cid f1 t1) cid f2 t2) cid f3 t3)).persist.writes =
        p.writes ++ [f3 (f2 (f1 conv))] ∧
      (fireSave (applyMutation (applyMutation (applyMutation ⟨conversations, p⟩
          cid f1 t1) cid f2 t2) cid f3 t3)).persist.modifiedConvIds = [] ∧
      (fireSave (applyMutation (applyMutation (applyMutation ⟨conversations, p⟩
          cid f1 t1) cid f2 t2) cid f3 t3)).persist.saveTimer = none) ∧
    (∀ (q : PersistState) (convId : String) (now : Nat),
      q.initDone = false → markModified q convId now = q) := by
  constructor
  · intro conversations p cid conv cpre cpost f1 f2 f3 t1 t2 t3
      hinit hclean hconvs hcid hpre hid1 hid2 hid3
    have hp3 :
        (applyMutation (applyMutation (applyMutation ⟨conversations, p⟩ cid f1 t1)
          cid f2 t2) cid f3 t3).persist =
        { p with modifiedConvIds := [cid],
                 saveTimer := some (t3 + DB_SAVE_DEBOUNCE_MS) } := by
      simp only [applyMutation, markModified, hinit, if_true, hclean, addModified]
      simp
    have hM1 :
        (conversations.map fun c => if c.id == cid then f1 c else c) =
          cpre ++ f1 conv :: (cpost.map fun c => if c.id == cid then f1 c else c) := by
      rw [hconvs]
      exact map_ite_keep (fun c : Conversation => c.id == cid) f1 cpre cpost conv
        (fun x hx => by simp [hpre x hx]) (by simp [hcid])
    have hM2 :
        ((cpre ++ f1 conv :: (cpost.map fun c => if c.id == cid then f1 c else c)).map
          fun c => if c.id == cid then f2 c else c) =
          cpre ++ f2 (f1 conv) ::
            ((cpost.map fun c => if c.id == cid then f1 c else c).map
              fun c => if c.id == cid then f2 c else c) :=
      map_ite_keep (fun c : Conversation => c.id == cid) f2 cpre _ (f1 conv)
        (fun x hx => by simp [hpre x hx]) (by simp [hid1])
    have hM3 :
        ((cpre ++ f2 (f1 conv) ::
          ((cpost.map fun c => if c.id == cid then f1 c else c).map
            fun c => if c.id == cid then f2 c else c)).map
          fun c => if c.id == cid then f3 c else c) =
          cpre ++ f3 (f2 (f1 conv)) ::
            (((cpost.map fun c => if c.id == cid then f1 c else c).map
              fun c => if c.id == cid then f2 c else c).map
              fun c => if c.id == cid then f3 c else c) :=
      map_ite_keep (fun c : Conversation => c.id == cid) f3 cpre _ (f2 (f1 conv))
        (fun x hx => by simp [hpre x hx]) (by simp [hid2])
    have hc3 :
        (applyMutation (applyMutation (applyMutation ⟨conversations, p⟩ cid f1 t1)
          cid f2 t2) cid f3 t3).conversations.find? (fun c => c.id == cid) =
        some (f3 (f2 (f1 conv))) := by
      simp only [applyMutation]
      rw [hM1, hM2, hM3, List.find?_append]
      have hnone : cpre.find? (fun c => c.id == cid) = none := by
        rw [List.find?_eq_none]
        intro x hx
        simp [hpre x hx]
      rw [hnone]
      simp only [Option.none_or]
      rw [List.find?_cons_of_pos _ (by simp [hid3])]
    refine ⟨by rw [hp3], by rw [hp3], ?_, ?_, ?_⟩
    · simp only [fireSave, fireSaveTimer, hp3]
      simp only [List.isEmpty_cons, Bool.false_eq_true, if_false]
      simp only [List.filterMap, hc3]
    · simp only [fireSave, fireSaveTimer, hp3]
      simp
    · simp only [fireSave, fireSaveTimer, hp3]
      simp
  · intro q convId now hq
    simp [markModified, hq]

def c5Model : Model :=
  { id := "gemini-3-flash-preview", name := "Gemini 3.0 Flash", provider := .google,
    description := "Fast and lightweight", supportsWebSearch := some true }

def c5Conv : Conversation :=
  { id := "c1", title := "t", messages := [], branches := [],
    createdAt := 0, updatedAt := 0, model := c5Model }

def c5P : PersistState :=
  { modifiedConvIds := [], saveTimer := none, initDone := true, writes := [] }

def c5NotLoaded : PersistState :=
  { modifiedConvIds := [], saveTimer := none, initDone := false, writes := [] }

def c5F1 : Conversation → Conversation := fun c => { c with title := "one" }
def c5F2 : Conversation → Conversation := fun c => { c with title := "two" }
def c5F3 : Conversation → Conversation := fun c => { c with title := "three" }

/-- Witness for C5 at a concrete conversation and three concrete
mutations. -/
theorem C5_debounced_save_witness :
    ((applyMutation (applyMutation (applyMutation ⟨[c5Conv], c5P⟩ "c1" c5F1 100)
        "c1" c5F2 200) "c1" c5F3 300).persist.modifiedConvIds = ["c1"] ∧
     (applyMutation (applyMutation (applyMutation ⟨[c5Conv], c5P⟩ "c1" c5F1 100)
        "c1" c5F2 200) "c1" c5F3 300).persist.saveTimer =
       some (300 + DB_SAVE_DEBOUNCE_MS) ∧
     (fireSave (applyMutation (applyMutation (applyMutation ⟨[c5Conv], c5P⟩
        "c1" c5F1 100) "c1" c5F2 200) "c1" c5F3 300)).persist.writes =
       c5P.writes ++ [c5F3 (c5F2 (c5F1 c5Conv))] ∧
     (fireSave (applyMutation (applyMutation (applyMutation ⟨[c5Conv], c5P⟩
        "c1" c5F1 100) "c1" c5F2 200) "c1" c5F3 300)).persist.modifiedConvIds = [] ∧
     (fireSave (applyMutation (applyMutation (applyMutation ⟨[c5Conv], c5P⟩
        "c1" c5F1 100) "c1" c5F2 200) "c1" c5F3 300)).persist.saveTimer = none) ∧
    markModified c5NotLoaded "c1" 42 = c5NotLoaded :=
  ⟨C5_debounced_save.1 [c5Conv] c5P "c1" c5Conv [] [] c5F1 c5F2 c5F3 100 200 300
      rfl rfl rfl rfl (by simp) rfl rfl rfl,
   C5_debounced_save.2 c5NotLoaded "c1" 42 rfl⟩

/-! ## Claim C8 -/

theorem str_empty_append (s : String) : ("" ++ s) = s := by
  cases s
  rfl

/-- Length of a string-list concatenation. -/
theorem strConcat_length (l : List String) :
    (strConcat l).length = (l.map String.length).sum := by
  induction l with
  | nil => rfl
  | cons s ss ih => simp [strConcat, String.length_append, ih]

/-- The sum of lengths of single-character strings is the list length. -/
theorem sum_map_length_ones (l : List String) (h : ∀ c ∈ l, String.length c = 1) :
    (l.map String.length).sum = l.length := by
  induction l with
  | nil => rfl
  | cons s ss ih =>
    simp [h s (List.mem_cons_self s ss),
      ih fun c hc => h c (List.mem_cons_of_mem s hc)]
    omega

/-- While the throttle window is closed (all chunks arrive at time 1000
with the last flush at 1000) the callback only accumulates: no update is
issued, the last-update time is unchanged, and the deferred update stays
scheduled for 1050 (or gets scheduled by the first such chunk). -/
theorem throttle_accumulate (cs : List String) :
    ∀ ts : ThrottleState, ts.lastUpdate = 1000 →
      (ts.deferred = none ∨ ts.deferred = some 1050) →
      ∃ d : Option Nat,
        ((cs.map fun c => ((1000 : Nat), c, false)).foldl throttleStep ts) =
          { content := ts.content ++ strConcat cs, lastUpdate := 1000,
            deferred := d, updates := ts.updates } ∧
        (d = none ∨ d = some 1050) := by
  induction cs with
  | nil =>
    intro ts hlu hd
    refine ⟨ts.deferred, ?_, hd⟩
    rw [List.map_nil, List.foldl_nil, strConcat, string_append_empty, ← hlu]
  | cons c cs ih =>
    intro ts hlu hd
    have hstep : throttleStep ts (1000, c, false) =
        { content := ts.content ++ c, lastUpdate := 1000,
          deferred := some 1050, updates := ts.updates } := by
      cases hd with
      | inl h => simp [throttleStep, throttleChunk, h, hlu, STREAM_UPDATE_THROTTLE_MS]
      | inr h => simp [throttleStep, throttleChunk, h, hlu, STREAM_UPDATE_THROTTLE_MS]
    obtain ⟨d, heq, hdef⟩ := ih
      { content := ts.content ++ c, lastUpdate := 1000,
        deferred := some 1050, updates := ts.updates } rfl (Or.inr rfl)
    refine ⟨d, ?_, hdef⟩
    rw [List.map_cons, List.foldl_cons, hstep, heq]
    simp [strConcat, String.append_assoc]

/-- C8: feeding 100 one-character chunks at time 1000 (well inside one
50 ms throttle interval), followed by the final chunk at time 1005,
produces exactly 2 content-update calls — strictly fewer than 100 — and
the last call carries the concatenation of all 100 chunks in order (the
first chunk flushes immediately because the fresh stream's last-update
time is 0; the final flush writes the whole accumulated buffer). -/
theorem C8_stream_throttle (chunks : List String)
    (hlen : chunks.length = 100)
    (hone : ∀ c ∈ chunks, String.length c = 1) :
    (runThrottle ((chunks.map fun c => ((1000 : Nat), c, false)) ++
        [((1005 : Nat), "", true)])).updates.length = 2 ∧
    (runThrottle ((chunks.map fun c => ((1000 : Nat), c, false)) ++
        [((1005 : Nat), "", true)])).updates.length < 100 ∧
    (runThrottle ((chunks.map fun c => ((1000 : Nat), c, false)) ++
        [((1005 : Nat), "", true)])).updates.getLast? =
      some (strConcat chunks) := by
  cases chunks with
  | nil => simp at hlen
  | cons c0 rest =>
    have hstep0 : throttleStep throttleInit (1000, c0, false) =
        { content := c0, lastUpdate := 1000, deferred := none, updates := [c0] } := by
      simp [throttleStep, throttleInit, throttleChunk, STREAM_UPDATE_THROTTLE_MS,
        str_empty_append]
    obtain ⟨d, heq, hdef⟩ := throttle_accumulate rest
      { content := c0, lastUpdate := 1000, deferred := none, updates := [c0] }
      rfl (Or.inl rfl)
    have hne : ¬ (c0 ++ strConcat rest) = "" := by
      intro h0
      have hzero : (c0 ++ strConcat rest).length = 0 := by rw [h0]; rfl
      rw [String.length_append, hone c0 (List.mem_cons_self c0 rest),
        strConcat_length,
        sum_map_length_ones rest (fun c hc => hone c (List.mem_cons_of_mem c0 hc))]
          at hzero
      omega
    have hfin : throttleStep
        { content := c0 ++ strConcat rest, lastUpdate := 1000,
          deferred := d, updates := [c0] } (1005, "", true) =
        { content := c0 ++ strConcat rest, lastUpdate := 1000,
          deferred := none, updates := [c0, c0 ++ strConcat rest] } := by
      cases hdef with
      | inl h =>
        subst h
        simp [throttleStep, throttleChunk, hne]
      | inr h =>
        subst h
        simp [throttleStep, throttleChunk, hne]
    have hrun : runThrottle (((c0 :: rest).map fun c => ((1000 : Nat), c, false)) ++
        [((1005 : Nat), "", true)]) =
        { content := c0 ++ strConcat rest, lastUpdate := 1000,
          deferred := none, updates := [c0, c0 ++ strConcat rest] } := by
      rw [runThrottle, List.map_cons, List.cons_append, List.foldl_cons, hstep0,
        List.foldl_append, heq, List.foldl_cons, List.foldl_nil, hfin]
    refine ⟨?_, ?_, ?_⟩
    · rw [hrun]
      rfl
    · rw [hrun]
      simp
    · rw [hrun]
      simp [strConcat]

/-- Witness for C8 at 100 concrete one-character chunks. -/
theorem C8_stream_throttle_witness :
    (runThrottle (((List.replicate 100 "a").map fun c => ((1000 : Nat), c, false)) ++
        [((1005 : Nat), "", true)])).updates.length = 2 ∧
    (runThrottle (((List.replicate 100 "a").map fun c => ((1000 : Nat), c, false)) ++
        [((1005 : Nat), "", true)])).updates.length < 100 ∧
    (runThrottle (((List.replicate 100 "a").map fun c => ((1000 : Nat), c, false)) ++
        [((1005 : Nat), "", true)])).updates.getLast? =
      some (strConcat (List.replicate 100 "a")) :=
  C8_stream_throttle (List.replicate 100 "a") (by simp)
    (fun c hc => by rw [List.eq_of_mem_replicate hc]; rfl)

/-! ## Claim C1 -/

/-- The Bool invariant checker of one conversation, in `Prop` form. -/
theorem convConsistent_iff (conv : Conversation) :
    convConsistent conv = true ↔
      ((∀ m ∈ allMessages conv, ∀ bid ∈ m.branchIds,
          ∃ b ∈ conv.branches, b.id = bid) ∧
       (∀ b ∈ conv.branches, ∃ m ∈ conv.messages, m.id = b.rootMessageId)) := by
  simp [convConsistent, messageBranchIdsOk, branchRootOk, List.all_eq_true,
    List.any_eq_true, Bool.and_eq_true, beq_iff_eq]

/-- The Bool invariant checker of the store state, in `Prop` form. -/
theorem stateConsistent_iff (s : ChatState) :
    stateConsistent s = true ↔
      ∀ conv ∈ s.conversations, convConsistent conv = true := by
  simp [stateConsistent, List.all_eq_true]

def c1Model : Model :=
  { id := "gpt-5.2", name := "GPT-5.2", provider := .openai,
    description := "Latest OpenAI flagship model", supportsWebSearch := some true }

def c1MsgA : Message :=
  { id := "mA", content := "A", role := .user, timestamp := 1,
    parentId := none, branchIds := [] }

def c1MsgB : Message :=
  { id := "mB", content := "B", role := .assistant, timestamp := 2,
    parentId := none, branchIds := ["b1"] }

def c1Branch : Branch :=
  { id := "b1", name := "Branch 1", rootMessageId := "mB", messages := [],
    isCollapsed := false, color := "hsl(217 91% 60%)", createdAt := 3 }

def c1Conv : Conversation :=
  { id := "c1", title := "t", messages := [c1MsgA, c1MsgB],
    branches := [c1Branch], createdAt := 0, updatedAt := 0, model := c1Model }

def c1State : ChatState :=
  { conversations := [c1Conv], activeConversationId := some "c1",
    activeBranchIds := [], selectedModel := c1Model }

/-- C1 counterexample: from a consistent state (one branch rooted at the
second main-sequence message), `editMessage` on the first message
truncates the root message away while the branch survives, leaving a
branch whose `rootMessageId` names no message of the main sequence — the
invariant is not preserved by `editMessage`. -/
theorem C1_counterexample :
    stateConsistent c1State = true ∧
    stateConsistent (editMessage c1State "mA" "edited" none 10) = false := by
  decide

/-- Appending a branch-free message to the main sequence preserves the
invariant of the conversation (the `addMessage` transform, for any derived
title). -/
theorem addMessageConv_consistent (conv : Conversation) (newMsg : Message)
    (t : String) (now : Nat)
    (hnew : newMsg.branchIds = [])
    (hcons : convConsistent conv = true) :
    convConsistent { conv with messages := conv.messages ++ [newMsg],
                               title := t, updatedAt := now } = true := by
  rw [convConsistent_iff] at hcons ⊢
  obtain ⟨ha, hb⟩ := hcons
  constructor
  · intro m hm bid hbid
    have hmm : m ∈ conv.messages ∨ m = newMsg ∨
        ∃ b0 ∈ conv.branches, m ∈ b0.messages := by
      simpa [allMessages, List.mem_append, List.mem_flatMap, List.mem_cons]
        using hm
    rcases hmm with hm1 | hm1 | ⟨b0, hb0, hmb0⟩
    · exact ha m (List.mem_append_left _ hm1) bid hbid
    · rw [hm1, hnew] at hbid
      exact absurd hbid (List.not_mem_nil bid)
    · exact ha m (List.mem_append_right _ (List.mem_flatMap.mpr ⟨b0, hb0, hmb0⟩))
        bid hbid
  · intro b hb2
    obtain ⟨m, hm, heq⟩ := hb b hb2
    exact ⟨m, List.mem_append_left _ hm, heq⟩

/-- Each message of a truncating edit keeps the branch-id set of some
original message. -/
theorem truncateEdit_branchIds (msgs : List Message) (mid nc : String) :
    ∀ m2 ∈ truncateEdit msgs mid nc,
      ∃ m ∈ msgs, m2.branchIds = m.branchIds := by
  intro m2 hm2
  rw [truncateEdit] at hm2
  by_cases h : msgs.findIdx (fun m => m.id == mid) < msgs.length
  · rw [dif_pos h] at hm2
    rcases List.mem_append.mp hm2 with hm2 | hm2
    · exact ⟨m2, (List.take_sublist _ _).mem hm2, rfl⟩
    · rcases List.mem_singleton.mp hm2 with rfl
      exact ⟨msgs.get ⟨_, h⟩, List.get_mem msgs _ h, rfl⟩
  · rw [dif_neg h] at hm2
    exact ⟨m2, hm2, rfl⟩

/-- The branch case of `editMessage` preserves the invariant
unconditionally: the truncated branch keeps only messages whose branch-id
sets already occurred, branch identities and roots are unchanged, and the
main sequence is untouched. -/
theorem editMessageBranchConv_consistent (conv : Conversation)
    (bid mid nc : String) (now : Nat)
    (hcons : convConsistent conv = true) :
    convConsistent (editMessageBranchConv bid mid nc now conv) = true := by
  rw [convConsistent_iff] at hcons ⊢
  obtain ⟨ha, hb⟩ := hcons
  have hgid : ∀ b : Branch,
      (if b.id == bid then
        { b with messages := truncateEdit b.messages mid nc } else b).id = b.id := by
    intro b
    by_cases h : b.id == bid <;> simp [h]
  have hgroot : ∀ b : Branch,
      (if b.id == bid then
        { b with messages := truncateEdit b.messages mid nc } else b).rootMessageId =
        b.rootMessageId := by
    intro b
    by_cases h : b.id == bid <;> simp [h]
  have hgmsgs : ∀ b : Branch, ∀ m2 ∈ (if b.id == bid then
      { b with messages := truncateEdit b.messages mid nc } else b).messages,
      ∃ m ∈ b.messages, m2.branchIds = m.branchIds := by
    intro b m2 hm2
    by_cases h : b.id == bid
    · rw [if_pos h] at hm2
      exact truncateEdit_branchIds b.messages mid nc m2 hm2
    · rw [if_neg h] at hm2
      exact ⟨m2, hm2, rfl⟩
  constructor
  · intro m hm bid2 hbid2
    simp only [editMessageBranchConv, allMessages, List.mem_append,
      List.mem_flatMap, List.mem_map] at hm
    have witness : ∀ b0 ∈ conv.branches, b0.id = bid2 →
        ∃ b2 ∈ (editMessageBranchConv bid mid nc now conv).branches, b2.id = bid2 := by
      intro b0 hb0 hid0
      refine ⟨if b0.id == bid then
        { b0 with messages := truncateEdit b0.messages mid nc } else b0, ?_, ?_⟩
      · simp only [editMessageBranchConv]
        exact List.mem_map.mpr ⟨b0, hb0, rfl⟩
      · rw [hgid b0, hid0]
    rcases hm with hm | ⟨b2, ⟨b0, hb0, hfb0⟩, hmb⟩
    · obtain ⟨b1, hb1, hid1⟩ := ha m (by simp [allMessages, hm]) bid2 hbid2
      exact witness b1 hb1 hid1
    · rw [← hfb0] at hmb
      obtain ⟨m0, hm0, hbids⟩ := hgmsgs b0 m hmb
      rw [hbids] at hbid2
      obtain ⟨b1, hb1, hid1⟩ := ha m0
        (by simp only [allMessages, List.mem_append, List.mem_flatMap]
            exact Or.inr ⟨b0, hb0, hm0⟩) bid2 hbid2
      exact witness b1 hb1 hid1
  · intro b2 hb2
    simp only [editMessageBranchConv, List.mem_map] at hb2
    obtain ⟨b0, hb0, hfb0⟩ := hb2
    obtain ⟨m, hm, heq⟩ := hb b0 hb0
    refine ⟨m, hm, ?_⟩
    rw [← hfb0, hgroot b0, heq]

/-- The main-sequence case of `editMessage` preserves the invariant
provided every branch root lies within the preserved prefix (up to and
including the edited message). -/
theorem editMessageMainConv_consistent (conv : Conversation)
    (mid nc : String) (now : Nat)
    (hcons : convConsistent conv = true)
    (hroots : conv.messages.findIdx (fun m => m.id == mid) < conv.messages.length →
      ∀ b ∈ conv.branches,
        ∃ m ∈ conv.messages.take ((conv.messages.findIdx fun m => m.id == mid) + 1),
          m.id = b.rootMessageId) :
    convConsistent (editMessageMainConv mid nc now conv) = true := by
  rw [editMessageMainConv]
  by_cases h : conv.messages.findIdx (fun m => m.id == mid) < conv.messages.length
  · rw [dif_pos h]
    rw [convConsistent_iff] at hcons ⊢
    obtain ⟨ha, hb⟩ := hcons
    constructor
    · intro m hm bid hbid
      have hmm : m ∈ conv.messages.take (conv.messages.findIdx fun m => m.id == mid) ∨
          m = { conv.messages.get ⟨_, h⟩ with content := nc } ∨
          ∃ b0 ∈ conv.branches, m ∈ b0.messages := by
        simpa [allMessages, List.mem_append, List.mem_flatMap, List.mem_cons]
          using hm
      rcases hmm with hm1 | hm1 | ⟨b0, hb0, hmb0⟩
      · exact ha m (List.mem_append_left _ ((List.take_sublist _ _).mem hm1)) bid hbid
      · have hbid2 : bid ∈ (conv.messages.get ⟨_, h⟩).branchIds := by
          rw [hm1] at hbid
          exact hbid
        exact ha _ (List.mem_append_left _ (List.get_mem conv.messages _ h)) bid hbid2
      · exact ha m (List.mem_append_right _ (List.mem_flatMap.mpr ⟨b0, hb0, hmb0⟩))
          bid hbid
    · intro b hb2
      obtain ⟨m, hmtake, heq⟩ := hroots h b hb2
      rw [List.take_succ] at hmtake
      rcases List.mem_append.mp hmtake with hm1 | hm1
      · exact ⟨m, List.mem_append_left _ hm1, heq⟩
      · rw [List.getElem?_eq_getElem h] at hm1
        rcases List.mem_singleton.mp (by simpa using hm1) with rfl
        refine ⟨{ conv.messages.get ⟨_, h⟩ with content := nc },
          List.mem_append_right _ (List.mem_singleton_self _), ?_⟩
        rw [← heq]
        simp [List.get_eq_getElem]
  · rw [dif_neg h]
    exact hcons

/-- The `createBranch` transform preserves the invariant provided the
root message id names a message of the main sequence. -/
theorem createBranchConv_consistent (conv : Conversation)
    (fromId nbid : String) (nb : Branch) (now : Nat)
    (hroot : nb.rootMessageId = fromId) (hid : nb.id = nbid)
    (hnbmsgs : nb.messages = [])
    (hexists : ∃ m ∈ conv.messages, m.id = fromId)
    (hcons : convConsistent conv = true) :
    convConsistent (createBranchConv fromId nbid nb now conv) = true := by
  rw [convConsistent_iff] at hcons ⊢
  obtain ⟨ha, hb⟩ := hcons
  have hhid : ∀ m : Message, (if m.id == fromId then
      { m with branchIds := m.branchIds ++ [nbid] } else m).id = m.id := by
    intro m
    by_cases h : m.id == fromId <;> simp [h]
  constructor
  · intro m hm bid hbid
    have hmm : (∃ m0 ∈ conv.messages, (if m0.id == fromId then
        { m0 with branchIds := m0.branchIds ++ [nbid] } else m0) = m) ∨
        (∃ b0 ∈ conv.branches, m ∈ b0.messages) ∨ m ∈ nb.messages := by
      simpa [createBranchConv, allMessages, List.mem_append, List.mem_flatMap,
        List.mem_map, List.mem_cons, or_assoc] using hm
    rcases hmm with ⟨m0, hm0, hfm0⟩ | ⟨b0, hb0, hmb0⟩ | hm1
    · by_cases hcase : m0.id == fromId
      · rw [if_pos hcase] at hfm0
        have hbid0 : bid ∈ m0.branchIds ++ [nbid] := by
          rw [← hfm0] at hbid
          exact hbid
        rcases List.mem_append.mp hbid0 with hbid1 | hbid1
        · obtain ⟨b1, hb1, hid1⟩ := ha m0 (List.mem_append_left _ hm0) bid hbid1
          exact ⟨b1, List.mem_append_left _ hb1, hid1⟩
        · rcases List.mem_singleton.mp hbid1 with rfl
          exact ⟨nb, List.mem_append_right _ (List.mem_singleton_self _), hid⟩
      · rw [if_neg hcase] at hfm0
        rw [← hfm0] at hbid
        obtain ⟨b1, hb1, hid1⟩ := ha m0 (List.mem_append_left _ hm0) bid hbid
        exact ⟨b1, List.mem_append_left _ hb1, hid1⟩
    · obtain ⟨b1, hb1, hid1⟩ := ha m
        (List.mem_append_right _ (List.mem_flatMap.mpr ⟨b0, hb0, hmb0⟩)) bid hbid
      exact ⟨b1, List.mem_append_left _ hb1, hid1⟩
    · rw [hnbmsgs] at hm1
      exact absurd hm1 (List.not_mem_nil m)
  · intro b hb2
    have hbb : b ∈ conv.branches ∨ b = nb := by
      simpa [createBranchConv, List.mem_append, List.mem_cons] using hb2
    rcases hbb with hb3 | rfl
    · obtain ⟨m, hm, heq⟩ := hb b hb3
      refine ⟨if m.id == fromId then
        { m with branchIds := m.branchIds ++ [nbid] } else m,
        List.mem_map.mpr ⟨m, hm, rfl⟩, ?_⟩
      rw [hhid m, heq]
    · obtain ⟨m, hm, hmid⟩ := hexists
      refine ⟨if m.id == fromId then
        { m with branchIds := m.branchIds ++ [nbid] } else m,
        List.mem_map.mpr ⟨m, hm, rfl⟩, ?_⟩
      rw [hhid m, hmid, hroot]

/-- The `deleteBranch` transform preserves the invariant provided no
branch message references the deleted branch id (the transform strips the
id from main-sequence messages only). -/
theorem deleteBranchConv_consistent (conv : Conversation)
    (bid : String) (now : Nat)
    (hbm : ∀ b ∈ conv.branches, ∀ m ∈ b.messages, bid ∉ m.branchIds)
    (hcons : convConsistent conv = true) :
    convConsistent (deleteBranchConv bid now conv) = true := by
  rw [convConsistent_iff] at hcons ⊢
  obtain ⟨ha, hb⟩ := hcons
  have hkid : ∀ m : Message, (if m.branchIds.contains bid then
      { m with branchIds := m.branchIds.filter (fun id => ¬ id = bid) } else m).id =
      m.id := by
    intro m
    by_cases h : m.branchIds.contains bid
    · rw [if_pos h]
    · rw [if_neg h]
  have hkbids : ∀ m : Message, ∀ bid2 ∈ (if m.branchIds.contains bid then
      { m with branchIds := m.branchIds.filter (fun id => ¬ id = bid) } else m).branchIds,
      bid2 ∈ m.branchIds ∧ ¬ bid2 = bid := by
    intro m bid2 hbid2
    by_cases h : m.branchIds.contains bid
    · rw [if_pos h] at hbid2
      have hf := List.mem_filter.mp hbid2
      refine ⟨hf.1, ?_⟩
      have := hf.2
      simpa using this
    · rw [if_neg h] at hbid2
      refine ⟨hbid2, ?_⟩
      intro heq
      rw [heq] at hbid2
      rw [List.contains_eq_any_beq] at h
      exact h (List.any_eq_true.mpr ⟨bid, hbid2, by simp⟩)
  have hsurvive : ∀ b1 ∈ conv.branches, ∀ bid2 : String, b1.id = bid2 → ¬ bid2 = bid →
      ∃ b2 ∈ (deleteBranchConv bid now conv).branches, b2.id = bid2 := by
    intro b1 hb1 bid2 hid1 hne
    refine ⟨b1, ?_, hid1⟩
    simp only [deleteBranchConv]
    refine List.mem_filter.mpr ⟨hb1, ?_⟩
    simp [hid1, hne]
  constructor
  · intro m hm bid2 hbid2
    have hmm : (∃ m0 ∈ conv.messages, (if m0.branchIds.contains bid then
        { m0 with branchIds := m0.branchIds.filter (fun id => ¬ id = bid) } else m0) = m) ∨
        ∃ b0, (b0 ∈ conv.branches ∧ (¬ b0.id = bid)) ∧ m ∈ b0.messages := by
      simpa [deleteBranchConv, allMessages, List.mem_append, List.mem_flatMap,
        List.mem_map, List.mem_filter] using hm
    rcases hmm with ⟨m0, hm0, hfm0⟩ | ⟨b0, ⟨hb0, _⟩, hmb0⟩
    · rw [← hfm0] at hbid2
      obtain ⟨hbid3, hne⟩ := hkbids m0 bid2 hbid2
      obtain ⟨b1, hb1, hid1⟩ := ha m0 (List.mem_append_left _ hm0) bid2 hbid3
      exact hsurvive b1 hb1 bid2 hid1 hne
    · obtain ⟨b1, hb1, hid1⟩ := ha m
        (List.mem_append_right _ (List.mem_flatMap.mpr ⟨b0, hb0, hmb0⟩)) bid2 hbid2
      have hne : ¬ bid2 = bid := by
        intro heq
        rw [heq] at hbid2
        exact hbm b0 hb0 m hmb0 hbid2
      exact hsurvive b1 hb1 bid2 hid1 hne
  · intro b hb2
    have hb3 : b ∈ conv.branches := by
      have h2 : b ∈ conv.branches ∧ ¬ b.id = bid := by
        simpa [deleteBranchConv, List.mem_filter] using hb2
      exact h2.1
    obtain ⟨m, hm, heq⟩ := hb b hb3
    refine ⟨if m.branchIds.contains bid then
      { m with branchIds := m.branchIds.filter (fun id => ¬ id = bid) } else m,
      List.mem_map.mpr ⟨m, hm, rfl⟩, ?_⟩
    rw [hkid m, heq]

/-- C1 amended: the mutual-consistency invariant is preserved by
`addMessage` and `deleteConversation` unconditionally; by `editMessage` on
a branch timeline unconditionally; by `editMessage` on the main sequence
provided every branch root of the active conversation lies within the
preserved prefix; by `createBranch` provided the root message id names a
message of the active conversation's main sequence; and by `deleteBranch`
provided no branch message references the deleted branch id.  (Without
those provisos the invariant is violated: see the counterexample, where a
main-sequence edit truncates a branch root away.) -/
theorem C1_invariant_preservation :
    (∀ (s : ChatState) (content : String) (role : Role)
       (parentId conversationId : Option String)
       (attachments : Option (List Attachment)) (newMsgId : String) (now : Nat),
      stateConsistent s = true →
      stateConsistent (addMessage s content role parentId conversationId
        attachments newMsgId now).fst = true) ∧
    (∀ (s : ChatState) (bid mid nc : String) (now : Nat),
      stateConsistent s = true →
      stateConsistent (editMessage s mid nc (some bid) now) = true) ∧
    (∀ (s : ChatState) (mid nc : String) (now : Nat),
      stateConsistent s = true →
      (∀ conv ∈ s.conversations, isActiveConv s conv = true →
        conv.messages.findIdx (fun m => m.id == mid) < conv.messages.length →
        ∀ b ∈ conv.branches,
          ∃ m ∈ conv.messages.take
            ((conv.messages.findIdx fun m => m.id == mid) + 1),
            m.id = b.rootMessageId) →
      stateConsistent (editMessage s mid nc none now) = true) ∧
    (∀ (s : ChatState) (fromId nbid : String) (rand now : Nat),
      stateConsistent s = true →
      (∀ conv ∈ s.conversations, isActiveConv s conv = true →
        ∃ m ∈ conv.messages, m.id = fromId) →
      stateConsistent (createBranch s fromId nbid rand now).fst = true) ∧
    (∀ (s : ChatState) (bid : String) (now : Nat),
      stateConsistent s = true →
      (∀ conv ∈ s.conversations, ∀ b ∈ conv.branches, ∀ m ∈ b.messages,
        bid ∉ m.branchIds) →
      stateConsistent (deleteBranch s bid now).fst = true) ∧
    (∀ (s : ChatState) (cid : String),
      stateConsistent s = true →
      stateConsistent (deleteConversation s cid).fst = true) := by
  refine ⟨?_, ?_, ?_, ?_, ?_, ?_⟩
  · -- addMessage
    intro s content role parentId conversationId attachments newMsgId now hs
    rw [stateConsistent_iff] at hs ⊢
    intro conv' hconv'
    simp only [addMessage] at hconv'
    obtain ⟨conv, hconv, hF⟩ := List.mem_map.mp hconv'
    rw [← hF]
    split
    · exact addMessageConv_consistent conv _ _ now rfl (hs conv hconv)
    · exact hs conv hconv
  · -- editMessage on a branch
    intro s bid mid nc now hs
    rw [stateConsistent_iff] at hs ⊢
    intro conv' hconv'
    simp only [editMessage] at hconv'
    obtain ⟨conv, hconv, hF⟩ := List.mem_map.mp hconv'
    rw [← hF]
    by_cases hcond : isActiveConv s conv
    · rw [if_pos hcond]
      exact editMessageBranchConv_consistent conv bid mid nc now (hs conv hconv)
    · rw [if_neg hcond]
      exact hs conv hconv
  · -- editMessage on the main sequence
    intro s mid nc now hs hroots
    rw [stateConsistent_iff] at hs ⊢
    intro conv' hconv'
    simp only [editMessage] at hconv'
    obtain ⟨conv, hconv, hF⟩ := List.mem_map.mp hconv'
    rw [← hF]
    by_cases hcond : isActiveConv s conv
    · rw [if_pos hcond]
      exact editMessageMainConv_consistent conv mid nc now (hs conv hconv)
        (hroots conv hconv hcond)
    · rw [if_neg hcond]
      exact hs conv hconv
  · -- createBranch
    intro s fromId nbid rand now hs hex
    have hmap : (createBranch s fromId nbid rand now).fst.conversations =
        s.conversations.map fun c =>
          if isActiveConv s c then
            createBranchConv fromId nbid (createBranch s fromId nbid rand now).snd now c
          else c := rfl
    rw [stateConsistent_iff] at hs ⊢
    intro conv' hconv'
    rw [hmap] at hconv'
    obtain ⟨conv, hconv, hF⟩ := List.mem_map.mp hconv'
    rw [← hF]
    by_cases hcond : isActiveConv s conv
    · rw [if_pos hcond]
      exact createBranchConv_consistent conv fromId nbid
        (createBranch s fromId nbid rand now).snd now rfl rfl rfl
        (hex conv hconv hcond) (hs conv hconv)
    · rw [if_neg hcond]
      exact hs conv hconv
  · -- deleteBranch
    intro s bid now hs hbm
    cases hfind : s.conversations.find? (fun c => c.branches.any fun b => b.id == bid) with
    | none =>
      simp only [deleteBranch, hfind]
      exact hs
    | some conversation =>
      cases hfind2 : conversation.branches.find? (fun b => b.id == bid) with
      | none =>
        simp only [deleteBranch, hfind, hfind2]
        exact hs
      | some branch =>
        simp only [deleteBranch, hfind, hfind2]
        rw [stateConsistent_iff] at hs ⊢
        intro conv' hconv'
        obtain ⟨conv, hconv, hF⟩ := List.mem_map.mp hconv'
        rw [← hF]
        by_cases hcond : (conv.id == conversation.id)
        · rw [if_pos hcond]
          exact deleteBranchConv_consistent conv bid now
            (fun b hb m hm => hbm conv hconv b hb m hm) (hs conv hconv)
        · rw [if_neg hcond]
          exact hs conv hconv
  · -- deleteConversation
    intro s cid hs
    have hmap : (deleteConversation s cid).fst.conversations =
        s.conversations.filter fun c => ¬ c.id = cid := rfl
    rw [stateConsistent_iff] at hs ⊢
    intro conv' hconv'
    rw [hmap] at hconv'
    exact hs conv' (List.mem_filter.mp hconv').1

/-- Witness for C1 amended: all six clauses at a concrete consistent
state (one conversation, two messages, one branch rooted at the second
message). -/
theorem C1_invariant_preservation_witness :
    stateConsistent (addMessage c1State "hi" .user none none none "m9" 50).fst = true ∧
    stateConsistent (editMessage c1State "x" "nc" (some "b1") 50) = true ∧
    stateConsistent (editMessage c1State "mB" "nc" none 50) = true ∧
    stateConsistent (createBranch c1State "mB" "b9" 0 50).fst = true ∧
    stateConsistent (deleteBranch c1State "b1" 50).fst = true ∧
    stateConsistent (deleteConversation c1State "c1").fst = true :=
  ⟨C1_invariant_preservation.1 c1State "hi" .user none none none "m9" 50 (by decide),
   C1_invariant_preservation.2.1 c1State "b1" "x" "nc" 50 (by decide),
   C1_invariant_preservation.2.2.1 c1State "mB" "nc" 50 (by decide) (by decide),
   C1_invariant_preservation.2.2.2.1 c1State "mB" "b9" 0 50 (by decide) (by decide),
   C1_invariant_preservation.2.2.2.2.1 c1State "b1" 50 (by decide) (by decide),
   C1_invariant_preservation.2.2.2.2.2 c1State "c1" (by decide)⟩
